import Mathlib

/-!
Verification of the tf-deployer variable-extraction and deployment pipeline.

The JavaScript sources are embedded shallowly:
* JS runtime values are modelled by `JSValue` (numbers as `Rat`; the float
  subtleties of IEEE arithmetic are never exercised by the verified claims).
* JS objects are association lists `List (String × JSValue)` in insertion
  order; assignment `obj[k] = v` is `upsert`.
* Regex-based scanning in the sources is embedded as deterministic scanners
  that reproduce the backtracking behaviour of the concrete patterns used.
* Fallible paths (JS exceptions) are `Option`/`Except`.
-/

set_option maxHeartbeats 1000000

/-- JS runtime values as used by the tf-deployer sources. -/
inductive JSValue where
  | vNull : JSValue
  | vUndefined : JSValue
  | vBool (b : Bool) : JSValue
  | vNum (q : Rat) : JSValue
  | vStr (s : String) : JSValue
  | vArr (elems : List JSValue) : JSValue
  | vObj (fields : List (String × JSValue)) : JSValue
deriving Repr

open JSValue

/-- JS truthiness: `null`, `undefined`, `false`, `0`, `""` are falsy. -/
def truthy : JSValue → Bool
  | vNull => false
  | vUndefined => false
  | vBool b => b
  | vNum q => !(q == 0)
  | vStr s => !(s == "")
  | vArr _ => true
  | vObj _ => true

/-- First-match association-list lookup (JS object keys are unique). -/
def lookupJS (l : List (String × JSValue)) (k : String) : Option JSValue :=
  match l with
  | [] => none
  | (k', v) :: rest => if k' == k then some v else lookupJS rest k

/-- Property read `x.f`: `undefined` on objects lacking the field and on
non-objects (the sources only ever read `sensitive` and `value`, which no
primitive wrapper provides). -/
def getField (v : JSValue) (k : String) : JSValue :=
  match v with
  | vObj fields => (lookupJS fields k).getD vUndefined
  | _ => vUndefined

/-- JS object assignment `obj[k] = v`: overwrite in place or append. -/
def upsert (l : List (String × JSValue)) (k : String) (v : JSValue) :
    List (String × JSValue) :=
  match l with
  | [] => [(k, v)]
  | (k', v') :: rest =>
      if k' == k then (k', v) :: rest else (k', v') :: upsert rest k v

/-- Fields contributed by spread syntax `{...x}` (primitives contribute
nothing; strings and arrays contribute indexed entries). -/
def spreadFields : JSValue → List (String × JSValue)
  | vObj fields => fields
  | vStr s => (s.data.enum.map fun (i, c) => (toString i, vStr (String.mk [c])))
  | vArr xs => (xs.enum.map fun (i, x) => (toString i, x))
  | _ => []

/-- Object literal `{f₁: v₁, ...}`: later duplicate keys overwrite earlier
ones while keeping the first position, exactly as JS object literals do. -/
def mkObj (fields : List (String × JSValue)) : JSValue :=
  vObj (fields.foldl (fun acc (kv : String × JSValue) => upsert acc kv.1 kv.2) [])

/-- Field mutation `obj.k = v` (a silent no-op on primitives). -/
def objSetField (o : JSValue) (k : String) (v : JSValue) : JSValue :=
  match o with
  | vObj fields => vObj (upsert fields k v)
  | other => other

example : getField (mkObj [("a", vNum 1), ("b", vNum 2), ("a", vNum 3)]) "a" = vNum 3 := rfl

/-! ### Character and string utilities -/

/-- The JS `\s` class (ASCII part: space, tab, newline, CR, vertical tab,
form feed); the sources never feed Unicode spaces through these paths. -/
def isSpaceJS (c : Char) : Bool :=
  c == ' ' || c == '\t' || c == '\n' || c == '\r' || c == '\x0b' || c == '\x0c'

/-- `String.prototype.trim` on a character list. -/
def trimJS (cs : List Char) : List Char :=
  (cs.dropWhile isSpaceJS).rdropWhile isSpaceJS

/-- Strip a literal from the front, or fail. -/
def dropLit : List Char → List Char → Option (List Char)
  | [], cs => some cs
  | _ :: _, [] => none
  | l :: ls, c :: cs => if l == c then dropLit ls cs else none

/-- Substring containment test (used for `String.prototype.includes`). -/
def containsSub (pat : List Char) : List Char → Bool
  | [] => (dropLit pat []).isSome
  | c :: cs => (dropLit pat (c :: cs)).isSome || containsSub pat cs

def lowerChars (cs : List Char) : List Char := cs.map Char.toLower

def headIs (c : Char) : List Char → Bool
  | [] => false
  | d :: _ => d == c

def lastIs (c : Char) (cs : List Char) : Bool := headIs c cs.reverse

/-- Numeric value of a digit run. -/
def digitsVal (ds : List Char) : Nat :=
  ds.foldl (fun n c => 10 * n + (c.toNat - '0'.toNat)) 0

/-- Exponent suffix `[eE][+-]?digits`, which must consume the whole rest. -/
def parseExpSuffix : List Char → Option Int
  | [] => some 0
  | e :: rest =>
    if e == 'e' || e == 'E' then
      let (sgn, r1) : Int × List Char :=
        match rest with
        | '+' :: r => (1, r)
        | '-' :: r => (-1, r)
        | r => (1, r)
      let ds := r1.takeWhile Char.isDigit
      if ds.isEmpty || !(r1.dropWhile Char.isDigit).isEmpty then none
      else some (sgn * (digitsVal ds : Int))
    else none

/-- The rational `± m · 10^(e - fracLen)`, built with `mkRat` only (the
`Rat` field operations do not reduce in the kernel). -/
def ratOfParts (neg : Bool) (m : Nat) (fracLen : Nat) (e : Int) : Rat :=
  let sgnm : Int := if neg then -(m : Int) else (m : Int)
  let ee : Int := e - (fracLen : Int)
  if 0 ≤ ee then mkRat (sgnm * ((10 ^ ee.toNat : Nat) : Int)) 1
  else mkRat sgnm (10 ^ (-ee).toNat)

/-- Decimal literal `[+-]?(digits[.digits?]|.digits)([eE][+-]?digits)?`. -/
def jsNumParse (t : List Char) : Option Rat :=
  let (neg, t1) : Bool × List Char :=
    match t with
    | '+' :: r => (false, r)
    | '-' :: r => (true, r)
    | r => (false, r)
  let intDigits := t1.takeWhile Char.isDigit
  let r1 := t1.dropWhile Char.isDigit
  let (fracDigits, r2) : List Char × List Char :=
    match r1 with
    | '.' :: r => (r.takeWhile Char.isDigit, r.dropWhile Char.isDigit)
    | r => ([], r)
  if intDigits.isEmpty && fracDigits.isEmpty then none
  else
    match parseExpSuffix r2 with
    | none => none
    | some e =>
      some (ratOfParts neg (digitsVal (intDigits ++ fracDigits)) fracDigits.length e)

/-- JS `Number(string)` coercion: `some q` when the result is a (finite)
number, `none` when it is `NaN`.  Whitespace is trimmed and the empty string
is `0`.  The `Infinity`, hex, octal and binary literal forms are not
modelled; no input exercised by the claims uses them. -/
def jsToNumber (s : List Char) : Option Rat :=
  let t := trimJS s
  if t.isEmpty then some 0 else jsNumParse t

/-- `!isNaN(Number(s))`, the numeric-parseability test the sources use. -/
def isNumericJS (s : List Char) : Bool := (jsToNumber s).isSome

example : jsToNumber " 42 ".data = some 42 := rfl
example : jsToNumber "".data = some 0 := rfl
example : jsToNumber "-1.5e1".data = some (-15) := rfl
example : jsToNumber "x5".data = none := rfl

/-! ### Comment stripping and whitespace normalization
(`terraform-parser.js` lines 9-14).

Each `replace` pass is embedded as a structurally recursive state machine
over the character list, so that the definitions evaluate by `rfl`. -/

/-- Is there a `*/` somewhere in the text? -/
def hasClose : List Char → Bool
  | [] => false
  | c :: rest => (c == '*' && headIs '/' rest) || hasClose rest

/-- `content.replace(/\/\*[\s\S]*?\*\//g, '')`.  In state `false` we scan
for `/*`; a `/*` opens a comment only when a `*/` follows somewhere (the
non-greedy match needs a closer; with no `*/` left, the regex cannot match
at this or any later position, so the rest is kept verbatim).  In state
`true` we drop characters through the nearest `*/`. -/
def sbcRun : Bool → List Char → List Char
  | false, '/' :: '*' :: rest =>
      if hasClose rest then sbcRun true rest else '/' :: '*' :: rest
  | false, c :: rest => c :: sbcRun false rest
  | false, [] => []
  | true, '*' :: '/' :: rest => sbcRun false rest
  | true, _ :: rest => sbcRun true rest
  | true, [] => []

def stripBlockComments (cs : List Char) : List Char := sbcRun false cs

/-- `content.replace(/\/\/.*$/gm, '')`: from each `//` to the end of its
line; the newline itself survives (`.` does not match it). -/
def slcRun : Bool → List Char → List Char
  | false, '/' :: '/' :: rest => slcRun true rest
  | false, c :: rest => c :: slcRun false rest
  | false, [] => []
  | true, '\n' :: rest => '\n' :: slcRun false rest
  | true, _ :: rest => slcRun true rest
  | true, [] => []

def stripLineComments (cs : List Char) : List Char := slcRun false cs

/-- `content.replace(/\s+/g, ' ')`: every whitespace run becomes one
space.  State `true` means the previous character was whitespace. -/
def cwsRun : Bool → List Char → List Char
  | _, [] => []
  | inWs, c :: rest =>
    if isSpaceJS c then
      if inWs then cwsRun true rest else ' ' :: cwsRun true rest
    else c :: cwsRun false rest

def collapseWs (cs : List Char) : List Char := cwsRun false cs

/-- The `cleanContent` normalization of `parseTerraformVariables`. -/
def normalizeTf (cs : List Char) : List Char :=
  trimJS (collapseWs (stripLineComments (stripBlockComments cs)))

example : (normalizeTf "//**/*a*/".data).asString = "/*a*/" := rfl
example : (normalizeTf "variable /* c */ \"x\"  \x7b \x7d ".data).asString =
    "variable \"x\" \x7b \x7d" := rfl
example : (normalizeTf "a /* x */ b // c\nd".data).asString = "a b d" := rfl

/-! ### Declaration-Block Extractor (`parseTerraformVariables`,
`terraform-parser.js` lines 6-111).

Each field regex is embedded as a deterministic matcher tried at every
position left to right (`scanMatch`), reproducing the leftmost-match
semantics of `String.prototype.match` without the `g` flag. -/

/-- Try a matcher at every position, leftmost success wins. -/
def scanMatch {α : Type} (m : List Char → Option α) : List Char → Option α
  | [] => m []
  | c :: cs =>
    match m (c :: cs) with
    | some r => some r
    | none => scanMatch m cs

/-- `type\s*=\s*([^\s\n]+)` at this position. -/
def matchTypeAt (cs : List Char) : Option (List Char) :=
  match dropLit "type".data cs with
  | none => none
  | some r1 =>
    match r1.dropWhile isSpaceJS with
    | '=' :: r3 =>
      let tok := (r3.dropWhile isSpaceJS).takeWhile (fun c => !(isSpaceJS c))
      if tok.isEmpty then none else some tok
    | _ => none

/-- `description\s*=\s*q([^q]*)q` at this position, for quote `q`. -/
def matchDescrQAt (q : Char) (cs : List Char) : Option (List Char) :=
  match dropLit "description".data cs with
  | none => none
  | some r1 =>
    match r1.dropWhile isSpaceJS with
    | '=' :: r3 =>
      match r3.dropWhile isSpaceJS with
      | c :: r5 =>
        if c == q then
          let cap := r5.takeWhile (fun d => !(d == q))
          match r5.dropWhile (fun d => !(d == q)) with
          | _ :: _ => some cap
          | [] => none
        else none
      | [] => none
    | _ => none

/-- Body of `q(?:[^q\\]|\\.)*q` after the opening quote: the escape-aware
quoted token.  Returns the token body and the rest after the closing
quote.  A lone trailing backslash or an escaped newline kills the
alternative (`.` does not match `\n`, and no shorter star iteration can end
just before a quote). -/
def qtokRun (q : Char) : List Char → Option (List Char × List Char)
  | [] => none
  | c :: rest =>
    if c == q then some ([], rest)
    else if c == '\\' then
      match rest with
      | [] => none
      | d :: r2 =>
        if d == '\n' then none
        else
          match qtokRun q r2 with
          | some (tk, r) => some (c :: d :: tk, r)
          | none => none
    else
      match qtokRun q rest with
      | some (tk, r) => some (c :: tk, r)
      | none => none

/-- The bare-token alternative `[^\s\n]+`. -/
def bareTok (r4 : List Char) : Option (List Char) :=
  let tok := r4.takeWhile (fun c => !(isSpaceJS c))
  if tok.isEmpty then none else some tok

/-- `default\s*=\s*("(?:[^"\\]|\\.)*"|'(?:[^'\\]|\\.)*'|[^\s\n]+)` at this
position; alternatives tried in order, quoted forms falling back to the
bare token when they fail. -/
def matchDefaultAt (cs : List Char) : Option (List Char) :=
  match dropLit "default".data cs with
  | none => none
  | some r1 =>
    match r1.dropWhile isSpaceJS with
    | '=' :: r3 =>
      let r4 := r3.dropWhile isSpaceJS
      match r4 with
      | [] => none
      | c :: r5 =>
        if c == '"' then
          match qtokRun '"' r5 with
          | some (tk, _) => some ('"' :: (tk ++ ['"']))
          | none => bareTok r4
        else if c == '\'' then
          match qtokRun '\'' r5 with
          | some (tk, _) => some ('\'' :: (tk ++ ['\'']))
          | none => bareTok r4
        else bareTok r4
    | _ => none

/-- `lit\s*=\s*(true|false)` at this position. -/
def matchBoolFieldAt (lit : List Char) (cs : List Char) : Option Bool :=
  match dropLit lit cs with
  | none => none
  | some r1 =>
    match r1.dropWhile isSpaceJS with
    | '=' :: r3 =>
      let r4 := r3.dropWhile isSpaceJS
      match dropLit "true".data r4 with
      | some _ => some true
      | none =>
        match dropLit "false".data r4 with
        | some _ => some false
        | none => none
    | _ => none

def isNullV : JSValue → Bool
  | vNull => true
  | _ => false

/-- `s.slice(1, -1)`. -/
def sliceEnds (cs : List Char) : List Char := (cs.drop 1).dropLast

/-- Coercion of the raw default token (`terraform-parser.js` lines 53-69). -/
def coerceDefault (tok : List Char) : JSValue :=
  if tok == "null".data then vNull
  else if tok == "true".data then vBool true
  else if tok == "false".data then vBool false
  else if headIs '"' tok && lastIs '"' tok then vStr (sliceEnds tok).asString
  else if headIs '\'' tok && lastIs '\'' tok then vStr (sliceEnds tok).asString
  else if isNumericJS tok then vNum ((jsToNumber tok).getD 0)
  else if headIs '[' tok || headIs '\x7b' tok then vStr tok.asString
  else vStr tok.asString

/-- Display type from the declared type (lines 84-94). -/
def displayType (ty : List Char) : String :=
  if ty == "bool".data || ty == "boolean".data then "boolean"
  else if ty == "number".data then "number"
  else if containsSub "list".data ty || containsSub "set".data ty then "array"
  else if containsSub "map".data ty || containsSub "object".data ty then "object"
  else "string"

/-- `variable.type` (lines 36-39, default `string`). -/
def blockType (body : List Char) : List Char :=
  match scanMatch matchTypeAt body with
  | some t => trimJS t
  | none => "string".data

/-- `variable.description` (lines 42-46, default empty). -/
def blockDescription (body : List Char) : List Char :=
  match scanMatch (matchDescrQAt '"') body with
  | some d => d
  | none =>
    match scanMatch (matchDescrQAt '\'') body with
    | some d => d
    | none => []

/-- `variable.default` after coercion (lines 49-70, default `null`). -/
def blockDefault (body : List Char) : JSValue :=
  match scanMatch matchDefaultAt body with
  | some tok => coerceDefault (trimJS tok)
  | none => vNull

/-- `variable.sensitive` (lines 73-76, default `false`). -/
def blockSensitive (body : List Char) : Bool :=
  (scanMatch (matchBoolFieldAt "sensitive".data) body).getD false

/-- `variable.nullable` (lines 79-82, default `true`). -/
def blockNullable (body : List Char) : Bool :=
  (scanMatch (matchBoolFieldAt "nullable".data) body).getD true

/-- One variable record from a matched block body (lines 23-107). -/
def parseVariableBlock (body : List Char) (fileName : String) : JSValue :=
  let dflt := blockDefault body
  let nul := blockNullable body
  mkObj [("value", dflt), ("type", vStr (displayType (blockType body))),
         ("original", dflt),
         ("description", vStr (blockDescription body).asString),
         ("source", vStr "terraform"),
         ("file", vStr fileName),
         ("terraformType", vStr (blockType body).asString),
         ("sensitive", vBool (blockSensitive body)), ("nullable", vBool nul),
         ("required", vBool (isNullV dflt && !nul))]

/-- Scan a block body `([^{}]*(?:\{[^{}]*\}[^{}]*)*)\}`: characters up to
the matching depth-1 `}` with exactly one brace level tolerated inside.
State `true` is inside a depth-2 sub-block, where a further `{` makes the
whole match fail (as the regex cannot match two nested levels). -/
def bodyRun : Bool → List Char → Option (List Char × List Char)
  | _, [] => none
  | false, '\x7d' :: rest => some ([], rest)
  | false, '\x7b' :: rest => (bodyRun true rest).map (fun p => ('\x7b' :: p.1, p.2))
  | false, c :: rest => (bodyRun false rest).map (fun p => (c :: p.1, p.2))
  | true, '\x7d' :: rest => (bodyRun false rest).map (fun p => ('\x7d' :: p.1, p.2))
  | true, '\x7b' :: _ => none
  | true, c :: rest => (bodyRun true rest).map (fun p => (c :: p.1, p.2))

/-- `variable\s+"([^"]+)"\s*\{ body \}` at this position. -/
def matchVariableAt (cs : List Char) : Option (String × List Char × List Char) :=
  match dropLit "variable".data cs with
  | none => none
  | some r1 =>
    if (r1.takeWhile isSpaceJS).isEmpty then none
    else
      match r1.dropWhile isSpaceJS with
      | '"' :: r3 =>
        let nm := r3.takeWhile (fun c => !(c == '"'))
        if nm.isEmpty then none
        else
          match r3.dropWhile (fun c => !(c == '"')) with
          | '"' :: r4 =>
            match r4.dropWhile isSpaceJS with
            | '\x7b' :: r6 =>
              match bodyRun false r6 with
              | some (body, rest) => some (nm.asString, body, rest)
              | none => none
            | _ => none
          | _ => none
      | _ => none

/-- The global `variableRegex.exec` loop: repeated leftmost matches, each
resuming after the previous match.  Fueled by the input length (every match
consumes at least one character, so the fuel never runs out on the actual
entry point below). -/
def scanVarBlocksF : Nat → List Char → List (String × List Char)
  | 0, _ => []
  | _ + 1, [] => []
  | fuel + 1, c :: cs =>
    match matchVariableAt (c :: cs) with
    | some (nm, body, rest) => (nm, body) :: scanVarBlocksF fuel rest
    | none => scanVarBlocksF fuel cs

def scanVarBlocks (cs : List Char) : List (String × List Char) :=
  scanVarBlocksF cs.length cs

/-- `parseTerraformVariables(content, fileName)` (lines 6-111). -/
def parseTerraformVariables (content : String) (fileName : String) :
    List (String × JSValue) :=
  let clean := normalizeTf content.data
  (scanVarBlocks clean).foldl
    (fun acc nb => upsert acc nb.1 (parseVariableBlock nb.2 fileName)) []

example :
    parseTerraformVariables
      "variable \"region\" \x7b type = string default = \"us-west-2\" description = \"AWS region\" \x7d"
      "main.tf" =
    [("region",
      vObj [("value", vStr "us-west-2"), ("type", vStr "string"),
            ("original", vStr "us-west-2"), ("description", vStr "AWS region"),
            ("source", vStr "terraform"), ("file", vStr "main.tf"),
            ("terraformType", vStr "string"), ("sensitive", vBool false),
            ("nullable", vBool true), ("required", vBool false)])] := rfl

example :
    parseTerraformVariables
      "variable \"token\" \x7b type = string nullable = false sensitive = true \x7d"
      "main.tf" =
    [("token",
      vObj [("value", vNull), ("type", vStr "string"),
            ("original", vNull), ("description", vStr ""),
            ("source", vStr "terraform"), ("file", vStr "main.tf"),
            ("terraformType", vStr "string"), ("sensitive", vBool true),
            ("nullable", vBool false), ("required", vBool true)])] := rfl

/-! ### Defaults-File Extractor (`parseTfvarsContent`,
`terraform-parser.js` lines 113-142). -/

/-- `content.split('\n')`. -/
def splitLines : List Char → List (List Char)
  | [] => [[]]
  | '\n' :: rest => [] :: splitLines rest
  | c :: rest =>
    match splitLines rest with
    | l :: ls => (c :: l) :: ls
    | [] => [[c]]

/-- The `\w` class. -/
def isWordChar (c : Char) : Bool := c.isAlpha || c.isDigit || c == '_'

/-- `/^(\w+)\s*=\s*(.+)$/` on one (already trimmed) line.  When everything
after the `=` is whitespace, the greedy `\s*` backtracks one step so the
final whitespace character becomes the capture. -/
def matchTfvarsLine (trimmed : List Char) : Option (List Char × List Char) :=
  let key := trimmed.takeWhile isWordChar
  if key.isEmpty then none
  else
    match (trimmed.dropWhile isWordChar).dropWhile isSpaceJS with
    | '=' :: r =>
      let v := r.dropWhile isSpaceJS
      if v.isEmpty then
        match r.reverse with
        | last :: _ => some (key, [last])
        | [] => none
      else some (key, v)
    | _ => none

/-- One pass of `.replace(/^q|q$/g, '')`: a leading `q` and a trailing `q`
are each removed independently when present. -/
def stripQuotePass (q : Char) (cs : List Char) : List Char :=
  let s1 := if headIs q cs then cs.drop 1 else cs
  if lastIs q s1 then s1.dropLast else s1

/-- `typeof` for the modelled values. -/
def typeofName : JSValue → String
  | vBool _ => "boolean"
  | vNum _ => "number"
  | vStr _ => "string"
  | vNull => "object"
  | vUndefined => "undefined"
  | vArr _ => "object"
  | vObj _ => "object"

/-- The value coercion of lines 126-130. -/
def tfvarsCoerce (pv : List Char) : JSValue :=
  if pv == "true".data then vBool true
  else if pv == "false".data then vBool false
  else if isNumericJS pv && !pv.isEmpty then vNum ((jsToNumber pv).getD 0)
  else vStr pv.asString

/-- The record built for one matching line (lines 124-137). -/
def tfvarsRecord (rawValue : List Char) : JSValue :=
  let pv := stripQuotePass '\'' (stripQuotePass '"' rawValue)
  let v := tfvarsCoerce pv
  mkObj [("value", v), ("type", vStr (typeofName v)),
         ("original", vStr rawValue.asString), ("source", vStr "tfvars")]

/-- One loop iteration of `parseTfvarsContent` (lines 117-138). -/
def tfvarsStep (acc : List (String × JSValue)) (line : List Char) :
    List (String × JSValue) :=
  let trimmed := trimJS line
  if trimmed.isEmpty || headIs '#' trimmed then acc
  else
    match matchTfvarsLine trimmed with
    | some kv => upsert acc kv.1.asString (tfvarsRecord kv.2)
    | none => acc

/-- `parseTfvarsContent(content)` (lines 113-142). -/
def parseTfvarsContent (content : String) : List (String × JSValue) :=
  (splitLines content.data).foldl tfvarsStep []

example :
    parseTfvarsContent "a = 1\n# comment\nb = \"x\"\n\na = 2" =
    [("a", vObj [("value", vNum 2), ("type", vStr "number"),
                 ("original", vStr "2"), ("source", vStr "tfvars")]),
     ("b", vObj [("value", vStr "x"), ("type", vStr "string"),
                 ("original", vStr "\"x\""), ("source", vStr "tfvars")])] := rfl

/-- Modelled from the words of claim C8: strip one layer of surrounding
quotes only when the text is actually surrounded by a matching pair. -/
def stripSurroundingQuotes (cs : List Char) : List Char :=
  if 2 ≤ cs.length &&
      ((headIs '"' cs && lastIs '"' cs) || (headIs '\'' cs && lastIs '\'' cs)) then
    sliceEnds cs
  else cs

/-- Modelled from the words of claim C8 (the claim's own strip rule,
otherwise the algorithm the claim describes). -/
def tfvarsLineClaim (line : List Char) : Option (String × JSValue) :=
  let trimmed := trimJS line
  if trimmed.isEmpty || headIs '#' trimmed then none
  else
    match matchTfvarsLine trimmed with
    | some kv =>
      let pv := stripSurroundingQuotes kv.2
      let v := tfvarsCoerce pv
      some (kv.1.asString,
        mkObj [("value", v), ("type", vStr (typeofName v)),
               ("original", vStr kv.2.asString), ("source", vStr "tfvars")])
    | none => none

def parseTfvarsContentClaim (content : String) : List (String × JSValue) :=
  ((splitLines content.data).filterMap tfvarsLineClaim).foldl
    (fun acc kv => upsert acc kv.1 kv.2) []

/-- The per-line processing as the amended claim words it: trim; skip blank
and `#` lines; match `<word-chars> = <rest>`; strip a leading and a
trailing double quote each independently when present, then likewise single
quotes; coerce `true`/`false`, then non-empty numeric text, else string. -/
def tfvarsLineAmended (line : List Char) : Option (String × JSValue) :=
  let trimmed := trimJS line
  if trimmed.isEmpty || headIs '#' trimmed then none
  else
    match matchTfvarsLine trimmed with
    | some kv => some (kv.1.asString, tfvarsRecord kv.2)
    | none => none

def parseTfvarsContentAmended (content : String) : List (String × JSValue) :=
  ((splitLines content.data).filterMap tfvarsLineAmended).foldl
    (fun acc kv => upsert acc kv.1 kv.2) []

/-! ### Documentation Extractor (`parseReadmeForVariables`,
`terraform-parser.js` lines 144-242).

The `patterns` array in the source lists four regexes, but the function
body only ever runs `patterns[0]` (table rows), `patterns[1]` (bullets)
and `patterns[2]` (colon definitions); `patterns[3]` (headings) is defined
and never executed, so the embedding has no heading pass. -/

def isIdentStart (c : Char) : Bool := c.isAlpha || c == '_'

/-- `parseDefaultValue(value)` (lines 210-226); `none` is an absent
(undefined) capture. -/
def parseDefaultValue (value : Option (List Char)) : JSValue :=
  let gone :=
    match value with
    | none => true
    | some v => v.isEmpty || (trimJS v).isEmpty || trimJS v == "-".data
  if gone then vStr ""
  else
    let s0 := trimJS (value.getD [])
    let s1 := if headIs '"' s0 || headIs '\'' s0 then s0.drop 1 else s0
    let t := if lastIs '"' s1 || lastIs '\'' s1 then s1.dropLast else s1
    if t == "true".data then vBool true
    else if t == "false".data then vBool false
    else if isNumericJS t && !t.isEmpty then vNum ((jsToNumber t).getD 0)
    else vStr t.asString

/-- `inferType(typeHint, defaultValue)` (lines 228-242). -/
def inferType (typeHint : List Char) (defaultValue : Option (List Char)) : String :=
  let hintRes : Option String :=
    if !typeHint.isEmpty then
      let hint := trimJS (lowerChars typeHint)
      if containsSub "bool".data hint || containsSub "boolean".data hint then
        some "boolean"
      else if containsSub "number".data hint || containsSub "int".data hint then
        some "number"
      else if containsSub "string".data hint then some "string"
      else none
    else none
  match hintRes with
  | some t => t
  | none =>
    let dvTruthy :=
      match defaultValue with
      | none => false
      | some d => !d.isEmpty
    if dvTruthy then typeofName (parseDefaultValue defaultValue)
    else "string"

/-- `\s*([^s]+)s` for a stop character `s`: leading whitespace is eaten by
the greedy `\s*`; when only whitespace precedes the stop, `\s*` backtracks
one step so the last whitespace character becomes the capture. -/
def capTill (stop : Char) (cs : List Char) : Option (List Char × List Char) :=
  let ws := cs.takeWhile isSpaceJS
  let r := cs.dropWhile isSpaceJS
  match r with
  | c :: r1 =>
    if c == stop then
      match ws.reverse with
      | last :: _ => some ([last], r1)
      | [] => none
    else
      let cap := r.takeWhile (fun d => !(d == stop))
      match r.dropWhile (fun d => !(d == stop)) with
      | _ :: r2 => some (cap, r2)
      | [] => none
  | [] => none

/-- `\s*(ident)\s*\|` of the table pattern. -/
def identCapAt (cs : List Char) : Option (List Char × List Char) :=
  match cs.dropWhile isSpaceJS with
  | c :: r1 =>
    if isIdentStart c then
      let tl := r1.takeWhile isWordChar
      match (r1.dropWhile isWordChar).dropWhile isSpaceJS with
      | '|' :: r3 => some (c :: tl, r3)
      | _ => none
    else none
  | [] => none

/-- Pattern 1, a table row
`\|\s*(ident)\s*\|\s*([^|]+)\s*\|\s*([^|]+)\s*\|\s*([^|]+)\s*\|`,
at this position. -/
def matchTableRowAt (cs : List Char) :
    Option ((List Char × List Char × List Char × List Char) × List Char) :=
  match cs with
  | '|' :: r0 =>
    match identCapAt r0 with
    | some (nm, r1) =>
      match capTill '|' r1 with
      | some (c1, r2) =>
        match capTill '|' r2 with
        | some (c2, r3) =>
          match capTill '|' r3 with
          | some (c3, r4) => some ((nm, c1, c2, c3), r4)
          | none => none
        | none => none
      | none => none
    | none => none
  | _ => none

def scanTableRowsF (fuel : Nat) (cs : List Char) :
    List (List Char × List Char × List Char × List Char) :=
  match fuel, cs with
  | 0, _ => []
  | _ + 1, [] => []
  | fuel + 1, c :: rest =>
    match matchTableRowAt (c :: rest) with
    | some (row, after) => row :: scanTableRowsF fuel after
    | none => scanTableRowsF fuel rest

/-- The free-text description `([^(]+)` that follows the separator
machinery `\s*[-:]?\s*` (bullets) or `\s*` (colon form).  `skipSep` says
whether an optional `[-:]` separator may be consumed.  When the separators
eat everything before the `(`, backtracking leaves the last such character
as the capture.  Returns the capture (the rest is the first `(` from
`start`, or the end). -/
def descCapture (skipSep : Bool) (start : List Char) : Option (List Char) :=
  let r4 := start.dropWhile isSpaceJS
  let r5 :=
    if skipSep then
      match r4 with
      | s :: r => if s == '-' || s == ':' then r else r4
      | [] => r4
    else r4
  let descN := (r5.dropWhile isSpaceJS).takeWhile (fun d => !(d == '('))
  if descN.isEmpty then
    match (start.takeWhile (fun d => !(d == '('))).reverse with
    | last :: _ => some [last]
    | [] => none
  else some descN

/-- The optional parenthesized default group `(?:\(lit\s*([^)]+)\))?`
tried at `r7`; returns the capture and the rest position. -/
def defaultGroup (lit : List Char) (r7 : List Char) :
    Option (List Char) × List Char :=
  match dropLit lit r7 with
  | some r8 =>
    match capTill ')' r8 with
    | some (dv, r10) => (some dv, r10)
    | none => (none, r7)
  | none => (none, r7)

/-- Pattern 2, a bulleted definition
``[-*]\s*`(ident)`\s*[-:]?\s*([^(]+)(?:\(default:\s*([^)]+)\))?``,
at this position. -/
def matchBulletAt (cs : List Char) :
    Option ((List Char × List Char × Option (List Char)) × List Char) :=
  match cs with
  | b :: r0 =>
    if b == '-' || b == '*' then
      match r0.dropWhile isSpaceJS with
      | '`' :: r1 =>
        match r1 with
        | c :: r2 =>
          if isIdentStart c then
            let nm := c :: r2.takeWhile isWordChar
            match r2.dropWhile isWordChar with
            | '`' :: r3 =>
              match descCapture true r3 with
              | some desc =>
                let r7 := r3.dropWhile (fun d => !(d == '('))
                let (dv, rest) := defaultGroup "(default:".data r7
                some ((nm, desc, dv), rest)
              | none => none
            | _ => none
          else none
        | [] => none
      | _ => none
    else none
  | [] => none

def scanBulletsF (fuel : Nat) (cs : List Char) :
    List (List Char × List Char × Option (List Char)) :=
  match fuel, cs with
  | 0, _ => []
  | _ + 1, [] => []
  | fuel + 1, c :: rest =>
    match matchBulletAt (c :: rest) with
    | some (row, after) => row :: scanBulletsF fuel after
    | none => scanBulletsF fuel rest

/-- Pattern 3, `^(ident)\s*:\s*([^(]+)(?:\(Default:\s*([^)]+)\))?` with
the `m` flag: matches only at line starts.  Also returns whether the
position after the match is a line start (the consumed text ends with the
`)` of the default group, or with the last description character, which
`[^(]` allows to be a newline). -/
def matchColonAt (cs : List Char) :
    Option ((List Char × List Char × Option (List Char)) × List Char × Bool) :=
  match cs with
  | c :: r1 =>
    if isIdentStart c then
      let nm := c :: r1.takeWhile isWordChar
      match (r1.dropWhile isWordChar).dropWhile isSpaceJS with
      | ':' :: r3 =>
        match descCapture false r3 with
        | some desc =>
          let r7 := r3.dropWhile (fun d => !(d == '('))
          match defaultGroup "(Default:".data r7 with
          | (some dv, rest) => some ((nm, desc, some dv), rest, false)
          | (none, rest) =>
            some ((nm, desc, none), rest, lastIs '\n' desc)
        | none => none
      | _ => none
    else none
  | [] => none

def scanColonF (fuel : Nat) (atStart : Bool) (cs : List Char) :
    List (List Char × List Char × Option (List Char)) :=
  match fuel, atStart, cs with
  | 0, _, _ => []
  | _ + 1, _, [] => []
  | fuel + 1, atStart', c :: rest =>
    if atStart' then
      match matchColonAt (c :: rest) with
      | some (row, after, nextStart) => row :: scanColonF fuel nextStart after
      | none => scanColonF fuel (c == '\n') rest
    else scanColonF fuel (c == '\n') rest

/-- The record built for one table row (lines 167-173). -/
def readmeTableRecord (row : List Char × List Char × List Char × List Char) :
    JSValue :=
  mkObj [("value", parseDefaultValue (some row.2.2.2)),
         ("type", vStr (inferType row.2.2.1 (some row.2.2.2))),
         ("description", vStr (trimJS row.2.1).asString),
         ("source", vStr "readme"),
         ("original", vStr row.2.2.2.asString)]

/-- The table pass (lines 163-175): header-like names are skipped, later
rows overwrite earlier ones. -/
def readmeTablePhase (rows : List (List Char × List Char × List Char × List Char)) :
    List (String × JSValue) :=
  rows.foldl
    (fun acc row =>
      if !(containsSub "variable".data (lowerChars row.1)) then
        upsert acc row.1.asString (readmeTableRecord row)
      else acc) []

/-- The record built for one bullet or colon match (lines 182-189 and
197-204, which are identical). -/
def readmeFillRecord (row : List Char × List Char × Option (List Char)) :
    JSValue :=
  mkObj [("value", parseDefaultValue row.2.2),
         ("type", vStr (inferType [] row.2.2)),
         ("description", vStr (trimJS row.2.1).asString),
         ("source", vStr "readme"),
         ("original", vStr ((row.2.2.getD []).asString))]

/-- The bullet and colon passes (lines 177-205): `if (!variables[name])`
means a match only fills a name not already present. -/
def readmeFillPhase (rows : List (List Char × List Char × Option (List Char)))
    (acc : List (String × JSValue)) : List (String × JSValue) :=
  rows.foldl
    (fun a row =>
      if truthy ((lookupJS a row.1.asString).getD vUndefined) then a
      else upsert a row.1.asString (readmeFillRecord row)) acc

/-- `parseReadmeForVariables(content)` (lines 144-208): the three executed
patterns in order; the heading pattern `patterns[3]` is defined in the
source but never run. -/
def parseReadmeForVariables (content : String) : List (String × JSValue) :=
  let cs := content.data
  readmeFillPhase (scanColonF cs.length true cs)
    (readmeFillPhase (scanBulletsF cs.length cs)
      (readmeTablePhase (scanTableRowsF cs.length cs)))

example :
    parseReadmeForVariables "| extra_flag | Enables extra behavior | bool | false |" =
    [("extra_flag",
      vObj [("value", vBool false), ("type", vStr "boolean"),
            ("description", vStr "Enables extra behavior"),
            ("source", vStr "readme"), ("original", vStr "false ")])] := rfl

example : parseReadmeForVariables "## my_var" = [] := rfl

example :
    parseReadmeForVariables "- `region` - the region (default: us-west-2)" =
    [("region",
      vObj [("value", vStr "us-west-2"), ("type", vStr "string"),
            ("description", vStr "the region"),
            ("source", vStr "readme"), ("original", vStr "us-west-2")])] := rfl

/-! ### Merge/Reconciliation Engine (`mergeAllVariables`,
`terraform-parser.js` lines 244-279). -/

/-- `arr.includes(s)` for a string argument. -/
def jsArrContainsStr (v : JSValue) (s : String) : Bool :=
  match v with
  | vArr xs =>
    xs.any (fun x =>
      match x with
      | vStr t => t == s
      | _ => false)
  | _ => false

/-- `arr.push(x)` (a no-op on non-arrays, which the sources never hit). -/
def jsArrPush (v : JSValue) (x : JSValue) : JSValue :=
  match v with
  | vArr xs => vArr (xs ++ [x])
  | other => other

/-- The record seeded from one declaration entry, with the conditional
readme-description enhancement (lines 248-262): spread the declaration
record, set `sources = ["terraform"]`, and when a readme record for the
same name has a truthy description while the seeded description is falsy,
copy the description and push `"readme"` onto `sources` (guarded by the
always-false `includes('readme')` check of line 259). -/
def mergeSeedRecord (readmeVariables : List (String × JSValue))
    (k : String) (tv : JSValue) : JSValue :=
  let seeded := mkObj (spreadFields tv ++ [("sources", vArr [vStr "terraform"])])
  match lookupJS readmeVariables k with
  | some rr =>
    if truthy rr && truthy (getField rr "description") &&
        !(truthy (getField seeded "description")) then
      let withDesc := objSetField seeded "description" (getField rr "description")
      let srcs := getField withDesc "sources"
      if jsArrContainsStr srcs "readme" then withDesc
      else objSetField withDesc "sources" (jsArrPush srcs (vStr "readme"))
    else seeded
  | none => seeded

/-- The record for a readme-only name (lines 268-276). -/
def readmeOnlyRecord (rr : JSValue) : JSValue :=
  mkObj (spreadFields rr ++
    [("sources", vArr [vStr "readme"]), ("required", vBool false)])

/-- The readme-only pass (lines 268-276): `if (!merged[key])` adds only
names not already present. -/
def mergeReadmeOnlyPhase (readmeVariables : List (String × JSValue))
    (acc : List (String × JSValue)) : List (String × JSValue) :=
  readmeVariables.foldl
    (fun merged kv =>
      if truthy ((lookupJS merged kv.1).getD vUndefined) then merged
      else upsert merged kv.1 (readmeOnlyRecord kv.2)) acc

/-- `mergeAllVariables(terraformVariables, tfvarsVariables,
readmeVariables)` (lines 244-279).  The tfvars argument is accepted and
ignored, as in the source. -/
def mergeAllVariables (terraformVariables : List (String × JSValue))
    (_tfvarsVariables : List (String × JSValue))
    (readmeVariables : List (String × JSValue)) : List (String × JSValue) :=
  let step1 := terraformVariables.foldl
    (fun merged kv => upsert merged kv.1 (mergeSeedRecord readmeVariables kv.1 kv.2)) []
  mergeReadmeOnlyPhase readmeVariables step1

/-! ### Deployment driver (`deployment-service.js`):
`generateTfvarsContent` (lines 116-182) and `extractSensitiveEnvVars`
(lines 16-83). -/

def joinWith (sep : String) : List String → String
  | [] => ""
  | [s] => s
  | s :: rest => s ++ sep ++ joinWith sep rest

/-- `value.replace(/"/g, '\\"').replace(/\n/g, '\\n')`. -/
def escTf (s : String) : String :=
  ((s.data.map fun c =>
    if c == '"' then ['\\', '"']
    else if c == '\n' then ['\\', 'n']
    else [c]).flatten).asString

/-- `item.replace(/"/g, '\\"')`. -/
def escQ (s : String) : String :=
  ((s.data.map fun c => if c == '"' then ['\\', '"'] else [c]).flatten).asString

/-- `Number.prototype.toString`.  The claims never inspect the rendering
of a non-integral number, so that case keeps the exact `num/den` form. -/
def numToString (q : Rat) : String :=
  if q.den == 1 then toString q.num
  else toString q.num ++ "/" ++ toString q.den

/-- `String(x)` as used by `Array.prototype.join`: `null` and `undefined`
render as the empty string, arrays rejoin with commas. -/
def strCoerce : JSValue → String
  | vNull => ""
  | vUndefined => ""
  | vBool b => if b then "true" else "false"
  | vNum q => numToString q
  | vStr s => s
  | vArr xs => joinWith "," (xs.attach.map fun x => strCoerce x.1)
  | vObj _ => "[object Object]"
decreasing_by
  have := List.sizeOf_lt_of_mem x.2
  simp only [JSValue.vArr.sizeOf_spec]
  omega

/-- The `.toString()` call: throws (`none`) on `null` and `undefined`. -/
def jsToStr : JSValue → Option String
  | vNull => none
  | vUndefined => none
  | vBool b => some (if b then "true" else "false")
  | vNum q => some (numToString q)
  | vStr s => some s
  | vArr xs => some (joinWith "," (xs.attach.map fun x => strCoerce x.1))
  | vObj _ => some "[object Object]"

def jsonEscStr (s : String) : String :=
  ((s.data.map fun c =>
    if c == '"' then ['\\', '"']
    else if c == '\\' then ['\\', '\\']
    else if c == '\n' then ['\\', 'n']
    else [c]).flatten).asString

/-- `JSON.stringify` for the modelled values (`none` is the `undefined`
result on a top-level `undefined`). -/
def jsonStringify : JSValue → Option String
  | vNull => some "null"
  | vUndefined => none
  | vBool b => some (if b then "true" else "false")
  | vNum q => some (numToString q)
  | vStr s => some ("\"" ++ jsonEscStr s ++ "\"")
  | vArr xs =>
    some ("[" ++ joinWith ","
      (xs.attach.map fun x => (jsonStringify x.1).getD "null") ++ "]")
  | vObj fs =>
    some ("\x7b" ++ joinWith ","
      ((fs.attach.filterMap fun kv =>
        (jsonStringify kv.1.2).map
          fun s => "\"" ++ jsonEscStr kv.1.1 ++ "\":" ++ s)) ++ "\x7d")
decreasing_by
  · have := List.sizeOf_lt_of_mem x.2
    simp only [JSValue.vArr.sizeOf_spec]
    omega
  · have := List.sizeOf_lt_of_mem kv.2
    have h2 : sizeOf kv.1.2 < sizeOf kv.1 := by
      cases kv1 : kv.1
      simp [kv1]
    simp only [JSValue.vObj.sizeOf_spec]
    omega

/-- Array items of line 148-153: strings are quote-escaped and quoted,
everything else goes through `.toString()` (which throws on `null` and
`undefined` items, failing the whole generation). -/
def formatArrItems : List JSValue → Option (List String)
  | [] => some []
  | x :: xs =>
    let item? :=
      match x with
      | vStr s => some ("\"" ++ escQ s ++ "\"")
      | other => jsToStr other
    match item?, formatArrItems xs with
    | some i, some rest => some (i :: rest)
    | _, _ => none

/-- Object entries of lines 158-167. -/
def formatObjItems : List (String × JSValue) → Option (List String)
  | [] => some []
  | (k, v) :: fs =>
    let fk :=
      if containsSub "-".data k.data || containsSub " ".data k.data then
        "\"" ++ k ++ "\""
      else k
    let fv? :=
      match v with
      | vStr s => some ("\"" ++ escQ s ++ "\"")
      | other => jsToStr other
    match fv?, formatObjItems fs with
    | some fv, some rest => some ((fk ++ " = " ++ fv) :: rest)
    | _, _ => none

/-- The `formattedValue` computation (lines 134-176).  When an object
entry's `.toString()` throws, the `catch` falls back to escaped
`JSON.stringify` output. -/
def formatValue (value : JSValue) : Option String :=
  match value with
  | vNull => some "null"
  | vUndefined => some "null"
  | vBool b => some (if b then "true" else "false")
  | vNum q => some (numToString q)
  | vStr s => some ("\"" ++ escTf s ++ "\"")
  | vArr xs => (formatArrItems xs).map (fun its => "[" ++ joinWith ", " its ++ "]")
  | vObj fs =>
    match formatObjItems fs with
    | some its => some ("\x7b\n  " ++ joinWith "\n  " its ++ "\n\x7d")
    | none => some ("\"" ++ escQ ((jsonStringify (vObj fs)).getD "") ++ "\"")

/-- `variableInfo.sensitive === true`. -/
def sensitiveIsTrue (info : JSValue) : Bool :=
  match getField info "sensitive" with
  | vBool true => true
  | _ => false

/-- `typeof x === 'object'` (true for `null`, arrays and objects). -/
def isObjTypeof : JSValue → Bool
  | vNull => true
  | vArr _ => true
  | vObj _ => true
  | _ => false

def isUndefV : JSValue → Bool
  | vUndefined => true
  | _ => false

def isEmptyStrV : JSValue → Bool
  | vStr s => s == ""
  | _ => false

/-- Unwrapping `{value: ...}` objects (lines 131-133 and 71-73). -/
def unwrapValue (info : JSValue) : JSValue :=
  if isObjTypeof info && !(isUndefV (getField info "value")) then
    getField info "value"
  else info

/-- The `key = value` entries pushed by `generateTfvarsContent`
(lines 119-179): falsy entries are skipped (`if (!variableInfo) return`),
entries whose own `sensitive` property is `true` are skipped, the value is
unwrapped from `{value: ...}` objects, formatted and pushed.  A formatting
exception (`none`) aborts the whole generation. -/
def tfvarsEntries : List (String × JSValue) → Option (List (String × String))
  | [] => some []
  | (key, info) :: rest =>
    if !(truthy info) then tfvarsEntries rest
    else if sensitiveIsTrue info then tfvarsEntries rest
    else
      match formatValue (unwrapValue info), tfvarsEntries rest with
      | some fv, some es => some ((key, fv) :: es)
      | _, _ => none

/-- `generateTfvarsContent(variables)` (lines 116-182). -/
def generateTfvarsContent (vars : List (String × JSValue)) : Option String :=
  (tfvarsEntries vars).map
    (fun es => joinWith "\n" (es.map fun kv => kv.1 ++ " = " ++ kv.2) ++ "\n")

example :
    generateTfvarsContent
      [("region", vObj [("value", vStr "us"), ("sensitive", vBool false)]),
       ("token", vObj [("value", vStr "s3cret"), ("sensitive", vBool true)]),
       ("debug", vBool true)] =
    some "region = \"us\"\ndebug = true\n" := rfl

def terraformSystemEnvVars : List String :=
  ["TF_DATA_DIR", "TF_WORKSPACE", "TF_IN_AUTOMATION", "TF_INPUT",
   "TF_CLI_CONFIG_FILE", "TF_PLUGIN_CACHE_DIR", "TF_REGISTRY_DISCOVERY_RETRY",
   "TF_REGISTRY_CLIENT_TIMEOUT", "TF_BACKEND_CONFIG", "TF_FORCE_LOCAL_BACKEND",
   "TF_SKIP_REMOTE_TESTS", "TF_STATE_LOCK", "TF_STATE_LOCK_TIMEOUT",
   "TF_LOCK_TIMEOUT", "TF_CLOUD_ORGANIZATION", "TF_CLOUD_HOSTNAME",
   "TF_TOKEN", "TF_TOKEN_app_terraform_io",
   "AWS_PROFILE", "AWS_REGION", "AWS_ACCESS_KEY_ID", "AWS_SECRET_ACCESS_KEY",
   "AZURE_SUBSCRIPTION_ID", "AZURE_CLIENT_ID", "AZURE_CLIENT_SECRET",
   "AZURE_TENANT_ID", "GOOGLE_APPLICATION_CREDENTIALS", "GOOGLE_PROJECT",
   "GOOGLE_REGION", "CONSUL_HTTP_ADDR", "CONSUL_HTTP_TOKEN", "ETCDV3_ENDPOINTS"]

def lookupStr (l : List (String × String)) (k : String) : Option String :=
  match l with
  | [] => none
  | (k', v) :: rest => if k' == k then some v else lookupStr rest k

/-- The `TF_VAR_` value for one user entry (lines 70-77): unwrap
`{value: ...}` objects (the `userValue &&` guard makes the unwrap test
equivalent to `unwrapValue` only for truthy entries; falsy entries are
passed through either way, `null` having no `value` property read), then
fall back to the empty string for null/undefined/empty values. -/
def envValueFor (uv : JSValue) : JSValue :=
  let value :=
    if truthy uv && isObjTypeof uv && !(isUndefV (getField uv "value")) then
      getField uv "value"
    else uv
  if !(isNullV value) && !(isUndefV value) && !(isEmptyStrV value) then value
  else vStr ""

/-- One step of the user-variable loop of `extractSensitiveEnvVars`
(lines 66-80): the ORIGINAL declaration record decides sensitivity. -/
def envStep (terraformVariables : List (String × JSValue))
    (acc : List (String × JSValue)) (kv : String × JSValue) :
    List (String × JSValue) :=
  match lookupJS terraformVariables kv.1 with
  | some tv =>
    if truthy tv && sensitiveIsTrue tv then
      upsert acc ("TF_VAR_" ++ kv.1) (envValueFor kv.2)
    else acc
  | none => acc

/-- `extractSensitiveEnvVars(variables, terraformVariables)`
(lines 16-83), with the ambient `process.env` passed explicitly.  Only
user variables whose ORIGINAL declaration record is truthy and has
`sensitive === true` become `TF_VAR_` entries. -/
def extractSensitiveEnvVars (processEnv : List (String × String))
    (vars terraformVariables : List (String × JSValue)) :
    List (String × JSValue) :=
  let env0 := terraformSystemEnvVars.foldl
    (fun acc name =>
      match lookupStr processEnv name with
      | some v => if !(v == "") then upsert acc name (vStr v) else acc
      | none => acc) []
  let env1 :=
    upsert (upsert env0 "TF_IN_AUTOMATION" (vStr "true")) "TF_INPUT" (vStr "false")
  vars.foldl (envStep terraformVariables) env1

/-! ### GitHub service (`github-service.js`): `parseGitHubUrl`
(lines 16-27) and `parseGitHubRepository` (lines 61-127), with the network
boundary passed in as oracles. -/

/-- `/github\.com\/([^\/]+)\/([^\/]+)\/tree\/([^\/]+)\/(.+)/` at this
position (`.` does not match `\n`). -/
def matchGitHubAt (cs : List Char) :
    Option (String × String × String × String) :=
  match dropLit "github.com/".data cs with
  | none => none
  | some r1 =>
    let own := r1.takeWhile (fun c => !(c == '/'))
    if own.isEmpty then none
    else
      match r1.dropWhile (fun c => !(c == '/')) with
      | '/' :: r2 =>
        let rep := r2.takeWhile (fun c => !(c == '/'))
        if rep.isEmpty then none
        else
          match dropLit "/tree/".data (r2.dropWhile (fun c => !(c == '/'))) with
          | some r4 =>
            let br := r4.takeWhile (fun c => !(c == '/'))
            if br.isEmpty then none
            else
              match r4.dropWhile (fun c => !(c == '/')) with
              | '/' :: r6 =>
                let pa := r6.takeWhile (fun c => !(c == '\n'))
                if pa.isEmpty then none
                else some (own.asString, rep.asString, br.asString, pa.asString)
              | _ => none
          | none => none
      | _ => none

/-- `parseGitHubUrl(repoUrl)`: leftmost regex match or the synchronous
`Invalid GitHub URL format` error. -/
def parseGitHubUrl (repoUrl : String) :
    Except String (String × String × String × String) :=
  match scanMatch matchGitHubAt repoUrl.data with
  | some r => Except.ok r
  | none => Except.error "Invalid GitHub URL format"

structure GHFile where
  name : String
  fileType : String
  downloadUrl : String
deriving Repr

structure RepoAnalysis where
  owner : String
  repo : String
  branch : String
  path : String
  terraformFiles : List String
  tfvarsFile : Option String
  readmeFile : Option String
  varRecords : List (String × JSValue)
  terraformVariables : List (String × JSValue)
  tfvarsVariables : List (String × JSValue)
  readmeVariables : List (String × JSValue)
  readmeContent : String
  allFiles : List (String × String)
deriving Repr

def isReadmeName (nm : String) : Bool :=
  let l := (lowerChars nm.data).asString
  l == "readme.md" || l == "readme.txt"

/-- `parseGitHubRepository(repoUrl)` with the GitHub API calls passed in
as oracles (`fetchContents` for the directory listing, `download` for file
bodies).  Files whose download fails are silently skipped, as in the
source. -/
def parseGitHubRepository
    (fetchContents : String → String → String → String → Except String (List GHFile))
    (download : String → Except String String)
    (repoUrl : String) : Except String RepoAnalysis :=
  match parseGitHubUrl repoUrl with
  | Except.error e => Except.error e
  | Except.ok (owner, repo, branch, path) =>
    match fetchContents owner repo branch path with
    | Except.error e => Except.error e
    | Except.ok files =>
      let terraformFiles := files.filter (fun f => f.name.endsWith ".tf")
      if terraformFiles.isEmpty then
        Except.error "No .tf files found in the repository"
      else
        let readmeFile := files.find? (fun f => isReadmeName f.name)
        let terraformVariables := terraformFiles.foldl
          (fun acc tf =>
            match download tf.downloadUrl with
            | Except.ok content =>
              (parseTerraformVariables content tf.name).foldl
                (fun a kv => upsert a kv.1 kv.2) acc
            | Except.error _ => acc) []
        let readmePair : String × List (String × JSValue) :=
          match readmeFile with
          | some rf =>
            match download rf.downloadUrl with
            | Except.ok content => (content, parseReadmeForVariables content)
            | Except.error _ => ("", [])
          | none => ("", [])
        Except.ok
          { owner, repo, branch, path,
            terraformFiles := terraformFiles.map (fun f => f.name),
            tfvarsFile := none,
            readmeFile := readmeFile.map (fun f => f.name),
            varRecords := mergeAllVariables terraformVariables [] readmePair.2,
            terraformVariables,
            tfvarsVariables := [],
            readmeVariables := readmePair.2,
            readmeContent := (readmePair.1.data.take 2000).asString,
            allFiles := files.map (fun f => (f.name, f.fileType)) }

/-! ### Claim-side definitions -/

/-- Modelled from the words of claim C4: the coercion precedence exactly as
the claim orders it — literal `null`; literal `true`/`false`; a single- or
double-quoted token unquoted; a numeric-parseable token as a number; a
token starting with `[` or `{` kept raw; anything else kept raw. -/
def coerceDefaultClaim (tok : List Char) : JSValue :=
  if tok == "null".data then vNull
  else if tok == "true".data || tok == "false".data then
    vBool (tok == "true".data)
  else if (headIs '"' tok && lastIs '"' tok) ||
      (headIs '\'' tok && lastIs '\'' tok) then
    vStr (sliceEnds tok).asString
  else if isNumericJS tok then vNum ((jsToNumber tok).getD 0)
  else if headIs '[' tok || headIs '\x7b' tok then vStr tok.asString
  else vStr tok.asString

/-- A `/*` followed (without overlap) by a `*/` somewhere later: exactly
when the block-comment regex can match somewhere. -/
def hasOC : List Char → Bool
  | [] => false
  | c :: rest =>
    (c == '/' && headIs '*' rest && hasClose (rest.drop 1)) || hasOC rest

/-- A `//` somewhere: exactly when the line-comment regex can match. -/
def hasDSlash : List Char → Bool
  | [] => false
  | c :: rest => (c == '/' && headIs '/' rest) || hasDSlash rest

def headWs : List Char → Bool
  | [] => false
  | d :: _ => isSpaceJS d

/-- Canonical whitespace: every whitespace character is a plain space and
is not followed by another whitespace character. -/
def wsCanon : List Char → Bool
  | [] => true
  | c :: rest =>
    (!(isSpaceJS c) || (c == ' ' && !(headWs rest))) && wsCanon rest

/-! ## Lemma toolbox -/

theorem lookupJS_upsert_self (l : List (String × JSValue)) (k : String) (v : JSValue) :
    lookupJS (upsert l k v) k = some v := by
  induction l with
  | nil => simp [upsert, lookupJS]
  | cons hd tl ih =>
    obtain ⟨k0, v0⟩ := hd
    by_cases h : k0 = k
    · simp [upsert, lookupJS, h]
    · simp [upsert, lookupJS, h, ih]

theorem lookupJS_upsert_ne (l : List (String × JSValue)) (k : String) (v : JSValue)
    (k' : String) (h : k' ≠ k) :
    lookupJS (upsert l k v) k' = lookupJS l k' := by
  have hks : ¬ (k = k') := fun e => h e.symm
  induction l with
  | nil => simp [upsert, lookupJS, hks]
  | cons hd tl ih =>
    obtain ⟨k0, v0⟩ := hd
    by_cases h1 : k0 = k
    · subst h1
      simp [upsert, lookupJS, hks]
    · simp only [upsert, lookupJS]
      by_cases h3 : k0 = k'
      · simp [h1, h3, h, hks, lookupJS]
      · simp [h1, h3, ih, lookupJS]

theorem lookupJS_append (a b : List (String × JSValue)) (k : String) :
    lookupJS (a ++ b) k =
      match lookupJS a k with
      | some v => some v
      | none => lookupJS b k := by
  induction a with
  | nil => simp [lookupJS]
  | cons hd tl ih =>
    obtain ⟨k0, v0⟩ := hd
    by_cases h : k0 = k
    · simp [lookupJS, h]
    · simp [lookupJS, h, ih]

theorem lookupJS_eq_none_iff (l : List (String × JSValue)) (k : String) :
    lookupJS l k = none ↔ k ∉ l.map Prod.fst := by
  induction l with
  | nil => simp [lookupJS]
  | cons hd tl ih =>
    obtain ⟨k0, v0⟩ := hd
    by_cases h : k0 = k
    · simp [lookupJS, h]
    · have h' : ¬ (k = k0) := fun e => h e.symm
      simp [lookupJS, h, ih, h']

theorem lookupJS_reverse_of_nodup (l : List (String × JSValue)) (k : String)
    (hnd : (l.map Prod.fst).Nodup) :
    lookupJS l.reverse k = lookupJS l k := by
  induction l with
  | nil => rfl
  | cons hd tl ih =>
    obtain ⟨k0, v0⟩ := hd
    simp only [List.map_cons, List.nodup_cons] at hnd
    rw [List.reverse_cons, lookupJS_append, ih hnd.2]
    by_cases h : k0 = k
    · have : lookupJS tl k = none := by
        rw [lookupJS_eq_none_iff]
        rw [h] at hnd
        exact hnd.1
      simp [this, lookupJS, h]
    · cases h2 : lookupJS tl k with
      | some v => simp [lookupJS, h, h2]
      | none => simp [lookupJS, h, h2]

theorem lookupJS_foldl_upsert (l : List (String × JSValue))
    (acc : List (String × JSValue)) (k : String) :
    lookupJS (l.foldl (fun a kv => upsert a kv.1 kv.2) acc) k =
      match lookupJS l.reverse k with
      | some v => some v
      | none => lookupJS acc k := by
  induction l generalizing acc with
  | nil => simp [lookupJS]
  | cons hd tl ih =>
    obtain ⟨k0, v0⟩ := hd
    rw [List.foldl_cons, ih, List.reverse_cons, lookupJS_append]
    cases h : lookupJS tl.reverse k with
    | some v => rfl
    | none =>
      by_cases h2 : k0 = k
      · subst h2
        simp [lookupJS, lookupJS_upsert_self]
      · simp [lookupJS, h2, lookupJS_upsert_ne acc k0 v0 k (fun e => h2 e.symm)]

theorem getField_mkObj (fields : List (String × JSValue)) (k : String) :
    getField (mkObj fields) k = (lookupJS fields.reverse k).getD vUndefined := by
  rw [mkObj, getField, lookupJS_foldl_upsert]
  cases lookupJS fields.reverse k <;> simp [lookupJS]

theorem mem_upsert_elim (l : List (String × JSValue)) (k : String) (v : JSValue)
    (p : String × JSValue) (h : p ∈ upsert l k v) : p ∈ l ∨ p = (k, v) := by
  induction l with
  | nil =>
    simp [upsert] at h
    simp [h]
  | cons hd tl ih =>
    obtain ⟨k0, v0⟩ := hd
    by_cases h1 : k0 = k
    · simp [upsert, h1] at h
      rcases h with h | h
      · exact Or.inr h
      · exact Or.inl (List.mem_cons_of_mem _ h)
    · simp [upsert, h1] at h
      rcases h with h | h
      · left
        simp [h]
      · rcases ih h with h2 | h2
        · exact Or.inl (List.mem_cons_of_mem _ h2)
        · exact Or.inr h2

theorem mem_foldl_upsert_shape {α : Type} (key : α → String) (val : α → JSValue) :
    ∀ (items : List α) (acc : List (String × JSValue)) (p : String × JSValue),
      p ∈ items.foldl (fun a it => upsert a (key it) (val it)) acc →
      p ∈ acc ∨ ∃ it ∈ items, p.2 = val it := by
  intro items
  induction items with
  | nil => exact fun acc p h => Or.inl h
  | cons it rest ih =>
    intro acc p h
    rcases ih _ p h with h1 | ⟨it', h2, h3⟩
    · rcases mem_upsert_elim _ _ _ _ h1 with h4 | h4
      · exact Or.inl h4
      · right
        exact ⟨it, List.mem_cons_self it rest, by rw [h4]⟩
    · exact Or.inr ⟨it', List.mem_cons_of_mem _ h2, h3⟩

theorem isNullV_eq_true_iff (v : JSValue) : isNullV v = true ↔ v = vNull := by
  cases v <;> simp [isNullV]

theorem getField_parseVariableBlock_required (body : List Char) (fn : String) :
    getField (parseVariableBlock body fn) "required" =
      vBool (isNullV (blockDefault body) && !(blockNullable body)) := rfl

theorem getField_parseVariableBlock_value (body : List Char) (fn : String) :
    getField (parseVariableBlock body fn) "value" = blockDefault body := rfl

theorem getField_parseVariableBlock_nullable (body : List Char) (fn : String) :
    getField (parseVariableBlock body fn) "nullable" =
      vBool (blockNullable body) := rfl

theorem getField_parseVariableBlock_original (body : List Char) (fn : String) :
    getField (parseVariableBlock body fn) "original" = blockDefault body := rfl

/-! ## Claim C3 -/

/-- Claim C3: for every variable record produced by the Declaration-Block
Extractor, `required == true` iff the coerced default value is null and
`nullable` is false. -/
theorem C3_required_iff (content fileName k : String) (record : JSValue)
    (hmem : (k, record) ∈ parseTerraformVariables content fileName) :
    getField record "required" = vBool true ↔
      (getField record "value" = vNull ∧
       getField record "nullable" = vBool false) := by
  simp only [parseTerraformVariables] at hmem
  rcases mem_foldl_upsert_shape (fun nb : String × List Char => nb.1)
      (fun nb => parseVariableBlock nb.2 fileName) _ _ _ hmem with h | ⟨nb, _, hval⟩
  · cases h
  · simp only at hval
    rw [hval, getField_parseVariableBlock_required,
      getField_parseVariableBlock_value, getField_parseVariableBlock_nullable]
    simp only [JSValue.vBool.injEq, Bool.and_eq_true, Bool.not_eq_true',
      isNullV_eq_true_iff]

/-- Witness for C3 on a concrete declaration with no default and
`nullable = false`. -/
theorem C3_witness :
    getField ((lookupJS (parseTerraformVariables
        "variable \"t\" \x7b nullable = false \x7d" "m.tf") "t").getD vUndefined)
      "required" = vBool true ↔
    (getField ((lookupJS (parseTerraformVariables
        "variable \"t\" \x7b nullable = false \x7d" "m.tf") "t").getD vUndefined)
      "value" = vNull ∧
     getField ((lookupJS (parseTerraformVariables
        "variable \"t\" \x7b nullable = false \x7d" "m.tf") "t").getD vUndefined)
      "nullable" = vBool false) :=
  C3_required_iff "variable \"t\" \x7b nullable = false \x7d" "m.tf" "t" _
    (List.Mem.head _)

/-! ## Claim C7 -/

/-- Claim C7 as stated is false: for `default = "x"` the record's
`original` field holds the coerced value `x` (line 99 stores
`variable.default`, which is already coerced), not the raw quoted token
`"x"`. -/
theorem C7_counterexample :
    getField ((lookupJS (parseTerraformVariables
        "variable \"a\" \x7b default = \"x\" \x7d" "main.tf") "a").getD vUndefined)
      "original" = vStr "x" ∧
    getField ((lookupJS (parseTerraformVariables
        "variable \"a\" \x7b default = \"x\" \x7d" "main.tf") "a").getD vUndefined)
      "original" ≠ vStr "\"x\"" := by
  refine ⟨rfl, fun h => ?_⟩
  rw [show getField ((lookupJS (parseTerraformVariables
      "variable \"a\" \x7b default = \"x\" \x7d" "main.tf") "a").getD vUndefined)
      "original" = vStr "x" from rfl] at h
  exact absurd (JSValue.vStr.inj h) (by decide)

/-- Claim C7 (amended): the `original` field always equals the coerced
`value` field — the raw default text is not retained. -/
theorem C7_amended_original_eq_value (body : List Char) (fn : String) :
    getField (parseVariableBlock body fn) "original" =
      getField (parseVariableBlock body fn) "value" := rfl

/-! ## Claim C4 -/

/-- Claim C4: the default-token coercion follows exactly the claimed
precedence (null; true/false; quoted unquote; numeric; `[`/`{` raw;
otherwise raw), and the record's `value` is that coercion of the trimmed
extracted token (or null when no default is present). -/
theorem C4_default_coercion (tok body : List Char) (fn : String) :
    coerceDefault tok = coerceDefaultClaim tok ∧
    getField (parseVariableBlock body fn) "value" =
      (match scanMatch matchDefaultAt body with
       | some t => coerceDefaultClaim (trimJS t)
       | none => vNull) := by
  have hcoerce : ∀ t, coerceDefault t = coerceDefaultClaim t := by
    intro t
    unfold coerceDefault coerceDefaultClaim
    cases hdq : headIs '"' t <;> cases hlq : lastIs '"' t <;>
      cases hsq : headIs '\'' t <;> cases hls : lastIs '\'' t <;>
        by_cases ht : t = "true".data <;> by_cases hf : t = "false".data <;>
          simp [hdq, hlq, hsq, hls, ht, hf, beq_iff_eq]
  refine ⟨hcoerce tok, ?_⟩
  rw [getField_parseVariableBlock_value, blockDefault]
  cases scanMatch matchDefaultAt body with
  | none => rfl
  | some t => simp only [hcoerce]

/-! ## Claim C10 -/

/-- Claim C10: a locator not matching the 4-part
`github.com/<owner>/<repo>/tree/<branch>/<path>` shape makes the parse
operation fail synchronously with `Invalid GitHub URL format`, before and
independent of any repository fetch: `parseGitHubRepository` returns that
error for every choice of the network oracles. -/
theorem C10_malformed_locator (url : String)
    (h : scanMatch matchGitHubAt url.data = none) :
    parseGitHubUrl url = Except.error "Invalid GitHub URL format" ∧
    ∀ (f₁ f₂ : String → String → String → String → Except String (List GHFile))
      (d₁ d₂ : String → Except String String),
      parseGitHubRepository f₁ d₁ url =
        Except.error "Invalid GitHub URL format" ∧
      parseGitHubRepository f₁ d₁ url = parseGitHubRepository f₂ d₂ url := by
  have h1 : parseGitHubUrl url = Except.error "Invalid GitHub URL format" := by
    rw [parseGitHubUrl, h]
  refine ⟨h1, fun f₁ f₂ d₁ d₂ => ⟨?_, ?_⟩⟩ <;>
    simp only [parseGitHubRepository, h1]

/-- Witness for C10: a locator missing the `/tree/<branch>/<path>`
segment. -/
theorem C10_witness :
    parseGitHubUrl "https://github.com/owner/repo" =
      Except.error "Invalid GitHub URL format" :=
  (C10_malformed_locator "https://github.com/owner/repo" rfl).1

/-! ## Claims C1 and C2 -/

theorem sensitiveIsTrue_of_getField (info : JSValue)
    (h : getField info "sensitive" = vBool true) : sensitiveIsTrue info = true := by
  rw [sensitiveIsTrue, h]

theorem truthy_of_getField_sensitive (info : JSValue)
    (h : getField info "sensitive" = vBool true) : truthy info = true := by
  cases info <;> simp_all [getField, truthy]

theorem tfvarsEntries_keys_subset :
    ∀ (l : List (String × JSValue)) (es : List (String × String)),
      tfvarsEntries l = some es →
      ∀ k, k ∈ es.map Prod.fst → k ∈ l.map Prod.fst := by
  intro l
  induction l with
  | nil =>
    intro es h k hk
    simp [tfvarsEntries] at h
    subst h
    simp at hk
  | cons hd tl ih =>
    intro es h k hk
    obtain ⟨k0, info⟩ := hd
    simp only [tfvarsEntries] at h
    by_cases h1 : truthy info
    · rw [if_neg (by simp [h1])] at h
      by_cases h2 : sensitiveIsTrue info
      · rw [if_pos h2] at h
        exact List.mem_cons_of_mem _ (ih es h k hk)
      · rw [if_neg h2] at h
        rcases hf : formatValue (unwrapValue info) with _ | fv <;> rw [hf] at h
        · cases h
        · rcases ht : tfvarsEntries tl with _ | es' <;> rw [ht] at h
          · cases h
          · injection h with h
            subst h
            simp only [List.map_cons, List.mem_cons] at hk
            rcases hk with hk | hk
            · simp [hk]
            · exact List.mem_cons_of_mem _ (ih es' ht k hk)
    · rw [if_pos (by simp [h1])] at h
      exact List.mem_cons_of_mem _ (ih es h k hk)

/-- With unique keys, a key's line is in the generated entries exactly
when its own entry is truthy and not sensitive-flagged. -/
theorem entry_key_mem_iff :
    ∀ (l : List (String × JSValue)) (es : List (String × String))
      (k : String) (info : JSValue),
      (l.map Prod.fst).Nodup → (k, info) ∈ l → tfvarsEntries l = some es →
      (k ∈ es.map Prod.fst ↔ (truthy info = true ∧ sensitiveIsTrue info = false)) := by
  intro l
  induction l with
  | nil => intro es k info _ hmem; cases hmem
  | cons hd tl ih =>
    intro es k info hnd hmem hes
    obtain ⟨k0, info0⟩ := hd
    simp only [List.map_cons, List.nodup_cons] at hnd
    simp only [tfvarsEntries] at hes
    rcases List.mem_cons.mp hmem with heq | hmemtl
    · cases heq
      by_cases h1 : truthy info
      · by_cases h2 : sensitiveIsTrue info
        · rw [if_neg (by simp [h1]), if_pos h2] at hes
          constructor
          · intro hk
            exact absurd (tfvarsEntries_keys_subset tl es hes k hk) hnd.1
          · rintro ⟨-, hs⟩
            rw [h2] at hs
            cases hs
        · rw [if_neg (by simp [h1]), if_neg h2] at hes
          rcases hf : formatValue (unwrapValue info) with _ | fv <;> rw [hf] at hes
          · cases hes
          · rcases ht : tfvarsEntries tl with _ | es' <;> rw [ht] at hes
            · cases hes
            · injection hes with hes
              subst hes
              simp only [List.map_cons, List.mem_cons]
              constructor
              · intro _
                exact ⟨h1, Bool.not_eq_true _ ▸ (by simpa using h2)⟩
              · intro _
                exact Or.inl trivial
      · rw [if_pos (by simp [h1])] at hes
        constructor
        · intro hk
          exact absurd (tfvarsEntries_keys_subset tl es hes k hk) hnd.1
        · rintro ⟨ht, -⟩
          exact absurd ht h1
    · have hkk0 : k ≠ k0 := by
        intro e
        subst e
        exact hnd.1 (List.mem_map_of_mem Prod.fst hmemtl)
      by_cases h1 : truthy info0
      · by_cases h2 : sensitiveIsTrue info0
        · rw [if_neg (by simp [h1]), if_pos h2] at hes
          exact ih es k info hnd.2 hmemtl hes
        · rw [if_neg (by simp [h1]), if_neg h2] at hes
          rcases hf : formatValue (unwrapValue info0) with _ | fv <;> rw [hf] at hes
          · cases hes
          · rcases ht : tfvarsEntries tl with _ | es' <;> rw [ht] at hes
            · cases hes
            · injection hes with hes
              subst hes
              simp only [List.map_cons, List.mem_cons]
              rw [or_iff_right hkk0]
              exact ih es' k info hnd.2 hmemtl ht
      · rw [if_pos (by simp [h1])] at hes
        exact ih es k info hnd.2 hmemtl hes

theorem mem_keys_upsert (l : List (String × JSValue)) (k : String) (v : JSValue)
    (k' : String) :
    k' ∈ (upsert l k v).map Prod.fst ↔ k' ∈ l.map Prod.fst ∨ k' = k := by
  induction l with
  | nil => simp [upsert]
  | cons hd tl ih =>
    obtain ⟨k0, v0⟩ := hd
    by_cases h : k0 = k
    · subst h
      simp [upsert]
      tauto
    · simp [upsert, h, ih]
      tauto

theorem keys_mono_envStep (tfv acc : List (String × JSValue))
    (kv : String × JSValue) (k' : String) (h : k' ∈ acc.map Prod.fst) :
    k' ∈ (envStep tfv acc kv).map Prod.fst := by
  simp only [envStep]
  rcases hl : lookupJS tfv kv.1 with _ | tv <;> dsimp only
  · exact h
  · by_cases hc : (truthy tv && sensitiveIsTrue tv) = true
    · rw [if_pos hc]
      exact (mem_keys_upsert _ _ _ _).mpr (Or.inl h)
    · rw [if_neg hc]
      exact h

theorem keys_mono_fold_envStep (tfv : List (String × JSValue)) :
    ∀ (uvars : List (String × JSValue)) (acc : List (String × JSValue))
      (k' : String), k' ∈ acc.map Prod.fst →
      k' ∈ ((uvars.foldl (envStep tfv) acc).map Prod.fst) := by
  intro uvars
  induction uvars with
  | nil => exact fun acc k' h => h
  | cons hd tl ih =>
    intro acc k' h
    exact ih _ k' (keys_mono_envStep tfv acc hd k' h)

theorem env_fold_adds (tfv : List (String × JSValue)) :
    ∀ (uvars : List (String × JSValue)) (acc : List (String × JSValue))
      (k₂ : String) (uv tv : JSValue), (k₂, uv) ∈ uvars →
      lookupJS tfv k₂ = some tv → truthy tv = true → sensitiveIsTrue tv = true →
      ("TF_VAR_" ++ k₂) ∈ ((uvars.foldl (envStep tfv) acc).map Prod.fst) := by
  intro uvars
  induction uvars with
  | nil => intro acc k₂ uv tv hmem; cases hmem
  | cons hd tl ih =>
    intro acc k₂ uv tv hmem hlk htr hsens
    rcases List.mem_cons.mp hmem with heq | hmemtl
    · cases heq
      rw [List.foldl_cons]
      apply keys_mono_fold_envStep
      unfold envStep
      dsimp only
      rw [hlk]
      dsimp only
      rw [if_pos (by rw [htr, hsens]; rfl)]
      exact (mem_keys_upsert _ _ _ _).mpr (Or.inr rfl)
    · exact ih _ k₂ uv tv hmemtl hlk htr hsens

/-- Claim C1: a merged (or any) variable record carrying
`sensitive == true` never yields a `name = value` line: its key is absent
from the generated entries and hence from the defaults artifact. -/
theorem C1_sensitive_excluded (vars : List (String × JSValue))
    (k : String) (info : JSValue) (es : List (String × String))
    (hnd : (vars.map Prod.fst).Nodup)
    (hmem : (k, info) ∈ vars)
    (hsens : getField info "sensitive" = vBool true)
    (hes : tfvarsEntries vars = some es) :
    k ∉ es.map Prod.fst ∧
    generateTfvarsContent vars =
      some (joinWith "\n" (es.map fun kv => kv.1 ++ " = " ++ kv.2) ++ "\n") := by
  constructor
  · rw [entry_key_mem_iff vars es k info hnd hmem hes]
    rintro ⟨-, hs⟩
    rw [sensitiveIsTrue_of_getField info hsens] at hs
    cases hs
  · unfold generateTfvarsContent
    rw [hes]
    rfl

/-- Witness for C1: a sensitive `token` next to a plain `region`. -/
theorem C1_witness :
    "token" ∉ ([("region", "\"us\"")].map
      (Prod.fst : String × String → String)) :=
  (C1_sensitive_excluded
    [("region", vObj [("value", vStr "us"), ("sensitive", vBool false)]),
     ("token", vObj [("value", vStr "s3cret"), ("sensitive", vBool true)])]
    "token" (vObj [("value", vStr "s3cret"), ("sensitive", vBool true)])
    [("region", "\"us\"")]
    (by simp)
    (List.mem_cons_of_mem _ (List.mem_cons_self _ _))
    rfl rfl).1

/-- Claim C2 as stated is false: a bare `false` entry is non-null,
non-undefined and has no `sensitive === true` property, yet no
`name = value` line is emitted for it — `if (!variableInfo) return` skips
every falsy entry, not only null/undefined ones. -/
theorem C2_counterexample :
    vBool false ≠ vNull ∧ vBool false ≠ vUndefined ∧
    sensitiveIsTrue (vBool false) = false ∧
    tfvarsEntries [("x", vBool false)] = some [] ∧
    "x" ∉ (([] : List (String × String)).map Prod.fst) :=
  ⟨(fun h => nomatch h), (fun h => nomatch h), rfl, rfl, by simp⟩

/-- Claim C2 (amended): a `name = value` line is emitted iff the
submitted entry is truthy and its own `sensitive` property is not exactly
`true`; and the environment-variable extraction consults the original
declaration records — a user variable whose original record is truthy and
`sensitive === true` always becomes a `TF_VAR_` environment entry. -/
theorem C2_amended_emission_iff (vars : List (String × JSValue))
    (k : String) (info : JSValue) (es : List (String × String))
    (hnd : (vars.map Prod.fst).Nodup) (hmem : (k, info) ∈ vars)
    (hes : tfvarsEntries vars = some es) :
    (k ∈ es.map Prod.fst ↔ (truthy info = true ∧ sensitiveIsTrue info = false)) ∧
    (∀ (env : List (String × String)) (uvars tfv : List (String × JSValue))
       (k₂ : String) (uv tv : JSValue), (k₂, uv) ∈ uvars →
       lookupJS tfv k₂ = some tv → truthy tv = true → sensitiveIsTrue tv = true →
       ("TF_VAR_" ++ k₂) ∈ (extractSensitiveEnvVars env uvars tfv).map Prod.fst) := by
  refine ⟨entry_key_mem_iff vars es k info hnd hmem hes, ?_⟩
  intro env uvars tfv k₂ uv tv hmem₂ hlk htr hsens
  unfold extractSensitiveEnvVars
  exact env_fold_adds tfv uvars _ k₂ uv tv hmem₂ hlk htr hsens

/-- Witness for C2 (amended): a bare truthy string entry is written even
though the original declaration marks the name sensitive, and the same
entry becomes a `TF_VAR_` environment variable. -/
theorem C2_witness :
    ("secret" ∈ ([("secret", "\"abc\"")].map
        (Prod.fst : String × String → String)) ↔
      (truthy (vStr "abc") = true ∧ sensitiveIsTrue (vStr "abc") = false)) ∧
    ("TF_VAR_secret" ∈
      (extractSensitiveEnvVars []
        [("secret", vStr "abc")]
        [("secret", vObj [("sensitive", vBool true)])]).map Prod.fst) :=
  have h := C2_amended_emission_iff [("secret", vStr "abc")] "secret"
    (vStr "abc") [("secret", "\"abc\"")] (by simp)
    (List.mem_cons_self _ _) rfl
  ⟨h.1, h.2 [] [("secret", vStr "abc")]
    [("secret", vObj [("sensitive", vBool true)])] "secret" (vStr "abc")
    (vObj [("sensitive", vBool true)])
    (List.mem_cons_self _ _) rfl rfl rfl⟩

/-! ## Claim C8 -/

/-- Claim C8 as stated is false: the source strips a leading and a
trailing quote independently (`.replace(/^"|"$/g, '')`), not only a
surrounding pair.  On the line `a = "5` the source yields the number `5`
(the lone leading quote is stripped, leaving numeric text), while the
claim's surrounded-only strip keeps the string `"5`. -/
theorem C8_counterexample :
    parseTfvarsContent "a = \"5" ≠ parseTfvarsContentClaim "a = \"5" ∧
    getField ((lookupJS (parseTfvarsContent "a = \"5") "a").getD vUndefined)
      "value" = vNum 5 ∧
    getField ((lookupJS (parseTfvarsContentClaim "a = \"5") "a").getD vUndefined)
      "value" = vStr "\"5" := by
  refine ⟨fun h => ?_, rfl, rfl⟩
  have h2 : vNum 5 = vStr "\"5" :=
    congrArg (fun l => getField ((lookupJS l "a").getD vUndefined) "value") h
  exact nomatch h2

theorem tfvarsStep_eq (acc : List (String × JSValue)) (line : List Char) :
    tfvarsStep acc line =
      match tfvarsLineAmended line with
      | some p => upsert acc p.1 p.2
      | none => acc := by
  rw [tfvarsStep, tfvarsLineAmended]
  by_cases h : (trimJS line).isEmpty || headIs '#' (trimJS line)
  · simp [h]
  · simp only [h, if_false, Bool.false_eq_true]
    cases matchTfvarsLine (trimJS line) <;> rfl

theorem foldl_tfvarsStep_eq (lines : List (List Char)) :
    ∀ acc, lines.foldl tfvarsStep acc =
      (lines.filterMap tfvarsLineAmended).foldl
        (fun a kv => upsert a kv.1 kv.2) acc := by
  induction lines with
  | nil => intro acc; rfl
  | cons line rest ih =>
    intro acc
    rw [List.foldl_cons, ih, List.filterMap_cons, tfvarsStep_eq]
    cases tfvarsLineAmended line <;> simp

/-- Claim C8 (amended): the Defaults-File Extractor skips blank and `#`
lines, parses `<word-chars> = <rest-of-line>`, strips a leading and a
trailing double quote each independently when present and then likewise
single quotes, coerces `true`/`false` to booleans and non-empty numeric
text to numbers, and keeps one record per matching line with later
same-key lines overwriting earlier ones. -/
theorem C8_amended_parse_eq (content : String) :
    parseTfvarsContent content = parseTfvarsContentAmended content := by
  rw [parseTfvarsContent, parseTfvarsContentAmended, foldl_tfvarsStep_eq]

/-! ## Claim C6 -/

/-- Claim C6 as stated is false: the heading pattern (`patterns[3]`) is
defined but never executed, so an input consisting only of a level-2
heading over an identifier produces no record at all. -/
theorem C6_counterexample :
    parseReadmeForVariables "## my_var" = [] ∧
    lookupJS (parseReadmeForVariables "## my_var") "my_var" = none :=
  ⟨rfl, rfl⟩

theorem readmeFillPhase_preserves
    (rows : List (List Char × List Char × Option (List Char))) :
    ∀ (acc : List (String × JSValue)) (k : String) (r : JSValue),
      truthy r = true → lookupJS acc k = some r →
      lookupJS (readmeFillPhase rows acc) k = some r := by
  induction rows with
  | nil => exact fun acc k r _ h => h
  | cons row rest ih =>
    intro acc k r htr h
    rw [readmeFillPhase, List.foldl_cons]
    by_cases hk : row.1.asString = k
    · rw [hk, h]
      simp only [Option.getD_some, htr, if_true]
      exact ih acc k r htr h
    · by_cases hc : truthy ((lookupJS acc row.1.asString).getD vUndefined) = true
      · rw [if_pos hc]
        exact ih acc k r htr h
      · rw [if_neg hc]
        exact ih _ k r htr
          (by rw [lookupJS_upsert_ne acc row.1.asString _ k (fun e => hk e.symm)]; exact h)

/-- Claim C6 (amended): only the first three patterns (table row, bullet,
colon definition) are executed, in that order, and the later passes only
fill names not already present — a record created by an earlier pass
survives to the final result unchanged; the heading pattern is never
applied, so a heading-only input produces no record. -/
theorem C6_amended_three_passes :
    (∀ (content : String) (k : String) (r : JSValue), truthy r = true →
      lookupJS (readmeTablePhase
        (scanTableRowsF content.data.length content.data)) k = some r →
      lookupJS (parseReadmeForVariables content) k = some r) ∧
    (∀ (content : String) (k : String) (r : JSValue), truthy r = true →
      lookupJS (readmeFillPhase (scanBulletsF content.data.length content.data)
        (readmeTablePhase (scanTableRowsF content.data.length content.data)))
        k = some r →
      lookupJS (parseReadmeForVariables content) k = some r) ∧
    parseReadmeForVariables "### header_name" = [] := by
  refine ⟨?_, ?_, rfl⟩
  · intro content k r htr h
    unfold parseReadmeForVariables
    exact readmeFillPhase_preserves _ _ _ _ htr
      (readmeFillPhase_preserves _ _ _ _ htr h)
  · intro content k r htr h
    unfold parseReadmeForVariables
    exact readmeFillPhase_preserves _ _ _ _ htr h

/-- Witness for C6 (amended): a table row for `a` survives a bullet
definition of the same name in a later pass. -/
theorem C6_witness :
    lookupJS (parseReadmeForVariables "| a | d | string | x |\n- `a` - other")
      "a" =
    some (vObj [("value", vStr "x"), ("type", vStr "string"),
                ("description", vStr "d"), ("source", vStr "readme"),
                ("original", vStr "x ")]) :=
  (C6_amended_three_passes).1 "| a | d | string | x |\n- `a` - other" "a"
    (vObj [("value", vStr "x"), ("type", vStr "string"),
           ("description", vStr "d"), ("source", vStr "readme"),
           ("original", vStr "x ")]) rfl rfl

/-! ## Claim C5 -/

theorem lookup_foldl_upsert_not_mem {g : String × JSValue → JSValue} :
    ∀ (l : List (String × JSValue)) (acc : List (String × JSValue)) (k : String),
      k ∉ l.map Prod.fst →
      lookupJS (l.foldl (fun m kv => upsert m kv.1 (g kv)) acc) k =
        lookupJS acc k := by
  intro l
  induction l with
  | nil => intro acc k _; rfl
  | cons hd tl ih =>
    intro acc k hk
    simp only [List.map_cons, List.mem_cons] at hk
    push_neg at hk
    rw [List.foldl_cons, ih _ k hk.2,
      lookupJS_upsert_ne _ _ _ k hk.1]

theorem lookup_foldl_upsert_of_mem {f : String → JSValue → JSValue} :
    ∀ (l : List (String × JSValue)) (acc : List (String × JSValue))
      (k : String) (tv : JSValue),
      (l.map Prod.fst).Nodup → (k, tv) ∈ l →
      lookupJS (l.foldl (fun m kv => upsert m kv.1 (f kv.1 kv.2)) acc) k =
        some (f k tv) := by
  intro l
  induction l with
  | nil => intro acc k tv _ hmem; cases hmem
  | cons hd tl ih =>
    intro acc k tv hnd hmem
    simp only [List.map_cons, List.nodup_cons] at hnd
    rw [List.foldl_cons]
    rcases List.mem_cons.mp hmem with heq | hmemtl
    · cases heq
      rw [lookup_foldl_upsert_not_mem tl _ k hnd.1, lookupJS_upsert_self]
    · exact ih _ k tv hnd.2 hmemtl

theorem truthy_mergeSeedRecord (rd : List (String × JSValue)) (k : String)
    (tv : JSValue) : truthy (mergeSeedRecord rd k tv) = true := by
  unfold mergeSeedRecord
  cases lookupJS rd k
  · rfl
  · dsimp only
    split_ifs <;> rfl

theorem getField_append_pair (fields tail : List (String × JSValue)) (k : String) :
    getField (mkObj (fields ++ tail)) k =
      (match lookupJS tail.reverse k with
       | some v => some v
       | none => lookupJS fields.reverse k).getD vUndefined := by
  rw [getField_mkObj, List.reverse_append, lookupJS_append]

theorem getField_seeded_sources (tv : JSValue) :
    getField (mkObj (spreadFields tv ++ [("sources", vArr [vStr "terraform"])]))
      "sources" = vArr [vStr "terraform"] := by
  rw [getField_append_pair]
  rfl

theorem getField_seeded_of_ne (tv : JSValue) (k : String) (h : ¬("sources" = k)) :
    getField (mkObj (spreadFields tv ++ [("sources", vArr [vStr "terraform"])])) k =
      (lookupJS (spreadFields tv).reverse k).getD vUndefined := by
  rw [getField_append_pair]
  have hn : lookupJS ([("sources", vArr [vStr "terraform"])]).reverse k = none := by
    simp [lookupJS, h]
  rw [hn]

theorem getField_readmeOnly_sources (rr : JSValue) :
    getField (readmeOnlyRecord rr) "sources" = vArr [vStr "readme"] := by
  rw [readmeOnlyRecord, getField_append_pair]
  rfl

theorem getField_readmeOnly_required (rr : JSValue) :
    getField (readmeOnlyRecord rr) "required" = vBool false := by
  rw [readmeOnlyRecord, getField_append_pair]
  rfl

theorem getField_objSetField_self (fs : List (String × JSValue)) (k : String)
    (v : JSValue) : getField (objSetField (vObj fs) k v) k = v := by
  simp [objSetField, getField, lookupJS_upsert_self]

theorem getField_objSetField_ne (fs : List (String × JSValue)) (k k' : String)
    (v : JSValue) (h : k' ≠ k) :
    getField (objSetField (vObj fs) k v) k' = getField (vObj fs) k' := by
  simp [objSetField, getField, lookupJS_upsert_ne fs k v k' h]

theorem getField_objSet_mkObj_self (fields : List (String × JSValue))
    (k : String) (v : JSValue) :
    getField (objSetField (mkObj fields) k v) k = v :=
  getField_objSetField_self _ k v

theorem getField_objSet_mkObj_ne (fields : List (String × JSValue))
    (k k' : String) (v : JSValue) (h : k' ≠ k) :
    getField (objSetField (mkObj fields) k v) k' = getField (mkObj fields) k' :=
  getField_objSetField_ne _ k k' v h

theorem getField_objSet_objSet_mkObj_self (fields : List (String × JSValue))
    (k1 : String) (v1 : JSValue) (k2 : String) (v2 : JSValue) :
    getField (objSetField (objSetField (mkObj fields) k1 v1) k2 v2) k2 = v2 :=
  getField_objSetField_self _ k2 v2

theorem getField_objSet_objSet_mkObj_ne (fields : List (String × JSValue))
    (k1 : String) (v1 : JSValue) (k2 : String) (v2 : JSValue) (k' : String)
    (h : k' ≠ k2) :
    getField (objSetField (objSetField (mkObj fields) k1 v1) k2 v2) k' =
      getField (objSetField (mkObj fields) k1 v1) k' :=
  getField_objSetField_ne _ k2 k' v2 h

/-- Sources of a seeded record always start with `"terraform"`. -/
theorem mergeSeedRecord_sources_head (rd : List (String × JSValue)) (k : String)
    (tv : JSValue) :
    ∃ rest, getField (mergeSeedRecord rd k tv) "sources" =
      vArr (vStr "terraform" :: rest) := by
  unfold mergeSeedRecord
  cases lookupJS rd k
  · exact ⟨[], getField_seeded_sources tv⟩
  · dsimp only
    split_ifs with h1 h2
    · refine ⟨[], ?_⟩
      rw [getField_objSet_mkObj_ne _ _ _ _ (by decide)]
      exact getField_seeded_sources tv
    · refine ⟨[vStr "readme"], ?_⟩
      rw [getField_objSet_objSet_mkObj_self]
      rw [getField_objSet_mkObj_ne _ _ _ _ (by decide), getField_seeded_sources]
      rfl
    · exact ⟨[], getField_seeded_sources tv⟩

/-- The description-copy branch of the merge. -/
theorem mergeSeedRecord_desc_copy (rd : List (String × JSValue)) (k : String)
    (tfs : List (String × JSValue)) (rr : JSValue) (d : String)
    (hnd : (tfs.map Prod.fst).Nodup)
    (hdesc : lookupJS tfs "description" = some (vStr ""))
    (hrd : lookupJS rd k = some rr) (hrr : truthy rr = true)
    (hrdesc : getField rr "description" = vStr d) (hd : d ≠ "") :
    getField (mergeSeedRecord rd k (vObj tfs)) "description" = vStr d ∧
    getField (mergeSeedRecord rd k (vObj tfs)) "sources" =
      vArr [vStr "terraform", vStr "readme"] := by
  unfold mergeSeedRecord
  rw [hrd]
  dsimp only
  have hseed : getField (mkObj (spreadFields (vObj tfs) ++
      [("sources", vArr [vStr "terraform"])])) "description" = vStr "" := by
    rw [getField_seeded_of_ne _ _ (by decide),
      show spreadFields (vObj tfs) = tfs from rfl,
      lookupJS_reverse_of_nodup tfs _ hnd, hdesc]
    rfl
  have hcond : (truthy rr && truthy (getField rr "description") &&
      !(truthy (getField (mkObj (spreadFields (vObj tfs) ++
        [("sources", vArr [vStr "terraform"])])) "description"))) = true := by
    rw [hrr, hrdesc, hseed]
    simp [truthy, hd]
  rw [if_pos hcond]
  have hsrcs : getField (objSetField (mkObj (spreadFields (vObj tfs) ++
      [("sources", vArr [vStr "terraform"])])) "description"
      (getField rr "description")) "sources" = vArr [vStr "terraform"] := by
    rw [getField_objSet_mkObj_ne _ _ _ _ (by decide)]
    exact getField_seeded_sources (vObj tfs)
  rw [hsrcs]
  rw [if_neg (by decide)]
  constructor
  · rw [getField_objSet_objSet_mkObj_ne _ _ _ _ _ _ (by decide),
      getField_objSet_mkObj_self, hrdesc]
  · rw [getField_objSet_objSet_mkObj_self]
    rfl

theorem truthy_readmeOnlyRecord (rr : JSValue) :
    truthy (readmeOnlyRecord rr) = true := rfl

theorem mergeReadmeOnlyPhase_preserves (rd : List (String × JSValue)) :
    ∀ (acc : List (String × JSValue)) (k : String) (r : JSValue),
      truthy r = true → lookupJS acc k = some r →
      lookupJS (mergeReadmeOnlyPhase rd acc) k = some r := by
  induction rd with
  | nil => exact fun acc k r _ h => h
  | cons hd tl ih =>
    intro acc k r htr h
    rw [mergeReadmeOnlyPhase, List.foldl_cons]
    by_cases hk : hd.1 = k
    · rw [hk, h]
      simp only [Option.getD_some, htr, if_true]
      exact ih acc k r htr h
    · by_cases hc : truthy ((lookupJS acc hd.1).getD vUndefined) = true
      · rw [if_pos hc]
        exact ih acc k r htr h
      · rw [if_neg hc]
        exact ih _ k r htr
          (by rw [lookupJS_upsert_ne acc hd.1 _ k (fun e => hk e.symm)]; exact h)

theorem mergeReadmeOnlyPhase_adds (rd : List (String × JSValue)) :
    ∀ (acc : List (String × JSValue)) (k : String) (rr : JSValue),
      (rd.map Prod.fst).Nodup → (k, rr) ∈ rd → lookupJS acc k = none →
      lookupJS (mergeReadmeOnlyPhase rd acc) k = some (readmeOnlyRecord rr) := by
  induction rd with
  | nil => intro acc k rr _ hmem; cases hmem
  | cons hd tl ih =>
    intro acc k rr hnd hmem hnone
    simp only [List.map_cons, List.nodup_cons] at hnd
    rw [mergeReadmeOnlyPhase, List.foldl_cons]
    rcases List.mem_cons.mp hmem with heq | hmemtl
    · cases heq
      rw [hnone]
      rw [if_neg (by decide)]
      exact mergeReadmeOnlyPhase_preserves tl _ k _ (truthy_readmeOnlyRecord rr)
        (lookupJS_upsert_self acc k _)
    · have hkk0 : k ≠ hd.1 := by
        intro e
        subst e
        exact hnd.1 (by simpa using List.mem_map_of_mem Prod.fst hmemtl)
      by_cases hc : truthy ((lookupJS acc hd.1).getD vUndefined) = true
      · rw [if_pos hc]
        exact ih _ k rr hnd.2 hmemtl hnone
      · rw [if_neg hc]
        exact ih _ k rr hnd.2 hmemtl
          (by rw [lookupJS_upsert_ne acc hd.1 _ k hkk0]; exact hnone)

/-- Claim C5: the merge engine's three guarantees — declaration-seeded
records' `sources` start with `"terraform"`; a name in both sources with
an empty declaration description and a non-empty documentation description
gets the documentation description and `sources` `["terraform","readme"]`;
a documentation-only name gets `sources == ["readme"]` and
`required == false`. -/
theorem C5_merge_policy (tf tfv rd : List (String × JSValue)) :
    (∀ (k : String) (tv : JSValue), (tf.map Prod.fst).Nodup → (k, tv) ∈ tf →
      ∃ m rest, lookupJS (mergeAllVariables tf tfv rd) k = some m ∧
        getField m "sources" = vArr (vStr "terraform" :: rest)) ∧
    (∀ (k : String) (tfs : List (String × JSValue)) (rr : JSValue) (d : String),
      (tf.map Prod.fst).Nodup → (k, vObj tfs) ∈ tf →
      (tfs.map Prod.fst).Nodup →
      lookupJS tfs "description" = some (vStr "") →
      lookupJS rd k = some rr → truthy rr = true →
      getField rr "description" = vStr d → d ≠ "" →
      ∃ m, lookupJS (mergeAllVariables tf tfv rd) k = some m ∧
        getField m "description" = vStr d ∧
        getField m "sources" = vArr [vStr "terraform", vStr "readme"]) ∧
    (∀ (k : String) (rr : JSValue), (rd.map Prod.fst).Nodup →
      k ∉ tf.map Prod.fst → (k, rr) ∈ rd →
      ∃ m, lookupJS (mergeAllVariables tf tfv rd) k = some m ∧
        getField m "sources" = vArr [vStr "readme"] ∧
        getField m "required" = vBool false) := by
  refine ⟨?_, ?_, ?_⟩
  · intro k tv hnd hmem
    obtain ⟨rest, hrest⟩ := mergeSeedRecord_sources_head rd k tv
    refine ⟨mergeSeedRecord rd k tv, rest, ?_, hrest⟩
    unfold mergeAllVariables
    exact mergeReadmeOnlyPhase_preserves rd _ k _
      (truthy_mergeSeedRecord rd k tv)
      (lookup_foldl_upsert_of_mem tf [] k tv hnd hmem)
  · intro k tfs rr d hnd hmem hndf hdesc hrd hrr hrdesc hd
    obtain ⟨h1, h2⟩ :=
      mergeSeedRecord_desc_copy rd k tfs rr d hndf hdesc hrd hrr hrdesc hd
    refine ⟨mergeSeedRecord rd k (vObj tfs), ?_, h1, h2⟩
    unfold mergeAllVariables
    exact mergeReadmeOnlyPhase_preserves rd _ k _
      (truthy_mergeSeedRecord rd k (vObj tfs))
      (lookup_foldl_upsert_of_mem tf [] k (vObj tfs) hnd hmem)
  · intro k rr hndr hknotf hmem
    refine ⟨readmeOnlyRecord rr, ?_, getField_readmeOnly_sources rr,
      getField_readmeOnly_required rr⟩
    unfold mergeAllVariables
    exact mergeReadmeOnlyPhase_adds rd _ k rr hndr hmem
      (by rw [lookup_foldl_upsert_not_mem tf [] k hknotf]; rfl)

/-- Witness for C5 on concrete declaration and documentation records. -/
theorem C5_witness :
    (∃ m, lookupJS (mergeAllVariables
        [("region", vObj [("value", vStr "us"), ("description", vStr "")])] []
        [("region", vObj [("description", vStr "region docs")]),
         ("extra", vObj [("description", vStr "doc")])]) "region" = some m ∧
      getField m "description" = vStr "region docs" ∧
      getField m "sources" = vArr [vStr "terraform", vStr "readme"]) ∧
    (∃ m, lookupJS (mergeAllVariables
        [("region", vObj [("value", vStr "us"), ("description", vStr "")])] []
        [("region", vObj [("description", vStr "region docs")]),
         ("extra", vObj [("description", vStr "doc")])]) "extra" = some m ∧
      getField m "sources" = vArr [vStr "readme"] ∧
      getField m "required" = vBool false) :=
  ⟨(C5_merge_policy _ _ _).2.1 "region"
      [("value", vStr "us"), ("description", vStr "")]
      (vObj [("description", vStr "region docs")]) "region docs"
      (by simp) (List.mem_cons_self _ _) (by simp) rfl rfl rfl rfl
      (by decide),
   (C5_merge_policy _ _ _).2.2 "extra"
      (vObj [("description", vStr "doc")])
      (by simp) (by simp) (List.mem_cons_of_mem _ (List.mem_cons_self _ _))⟩

/-! ## Claim C9 -/

theorem sbcRun_false_skip (c : Char) (rest : List Char)
    (h : ¬(c = '/' ∧ headIs '*' rest = true)) :
    sbcRun false (c :: rest) = c :: sbcRun false rest := by
  rw [sbcRun.eq_def]
  split <;> simp_all [headIs]

theorem slcRun_false_skip (c : Char) (rest : List Char)
    (h : ¬(c = '/' ∧ headIs '/' rest = true)) :
    slcRun false (c :: rest) = c :: slcRun false rest := by
  rw [slcRun.eq_def]
  split <;> simp_all [headIs]

theorem slcRun_true_skip (c : Char) (rest : List Char) (h : ¬(c = '\n')) :
    slcRun true (c :: rest) = slcRun true rest := by
  rw [slcRun.eq_def]
  split <;> simp_all

theorem hasDSlash_tail {c : Char} {rest : List Char}
    (h : hasDSlash (c :: rest) = false) : hasDSlash rest = false := by
  simp only [hasDSlash, Bool.or_eq_false_iff] at h
  exact h.2

theorem hasOC_tail {c : Char} {rest : List Char}
    (h : hasOC (c :: rest) = false) : hasOC rest = false := by
  simp only [hasOC, Bool.or_eq_false_iff] at h
  exact h.2

theorem sbcRun_id : ∀ (cs : List Char), hasOC cs = false → sbcRun false cs = cs := by
  intro cs
  induction cs with
  | nil => intro _; rfl
  | cons c rest ih =>
    intro h
    by_cases hpair : c = '/' ∧ headIs '*' rest = true
    · obtain ⟨hc, hd⟩ := hpair
      subst hc
      rcases rest with _ | ⟨d, r⟩
      · cases hd
      · have hd' : d = '*' := by simpa [headIs] using hd
        subst hd'
        have hcl : hasClose r = false := by
          simp only [hasOC, Bool.or_eq_false_iff] at h
          simpa [headIs] using h.1
        show (if hasClose r then sbcRun true r else '/' :: '*' :: r) = '/' :: '*' :: r
        rw [hcl]
        simp
    · rw [sbcRun_false_skip c rest hpair, ih (hasOC_tail h)]

theorem slcRun_id : ∀ (cs : List Char), hasDSlash cs = false → slcRun false cs = cs := by
  intro cs
  induction cs with
  | nil => intro _; rfl
  | cons c rest ih =>
    intro h
    have hpair : ¬(c = '/' ∧ headIs '/' rest = true) := by
      rintro ⟨hc, hd⟩
      subst hc
      simp [hasDSlash, hd] at h
    rw [slcRun_false_skip c rest hpair, ih (hasDSlash_tail h)]

theorem headIs_slash_slcRun (cs : List Char) (h : headIs '/' cs = false) :
    headIs '/' (slcRun false cs) = false := by
  rcases cs with _ | ⟨d, r⟩
  · rfl
  · have hd : ¬ d = '/' := by simpa [headIs] using h
    rw [slcRun_false_skip d r (by rintro ⟨h1, _⟩; exact hd h1)]
    simp [headIs, hd]

theorem headIs_newline_notslash (cs : List Char) :
    headIs '/' ('\n' :: cs) = false := rfl

theorem hasDSlash_slcRun : ∀ (cs : List Char) (b : Bool),
    hasDSlash (slcRun b cs) = false := by
  intro cs
  induction cs with
  | nil => intro b; cases b <;> rfl
  | cons c rest ih =>
    intro b
    cases b with
    | true =>
      by_cases hn : c = '\n'
      · subst hn
        show hasDSlash ('\n' :: slcRun false rest) = false
        simp [hasDSlash, ih false, headIs_newline_notslash (slcRun false rest)]
      · rw [slcRun_true_skip c rest hn]
        exact ih true
    | false =>
      by_cases hpair : c = '/' ∧ headIs '/' rest = true
      · obtain ⟨hc, hd⟩ := hpair
        subst hc
        rcases rest with _ | ⟨d, r⟩
        · cases hd
        · have hd' : d = '/' := by simpa [headIs] using hd
          subst hd'
          show hasDSlash (slcRun true r) = false
          have h2 := ih true
          rwa [slcRun_true_skip '/' r (by decide)] at h2
      · rw [slcRun_false_skip c rest hpair]
        have htl := ih false
        by_cases hc : c = '/'
        · subst hc
          have hdr : headIs '/' rest = false := by
            cases hx : headIs '/' rest
            · rfl
            · exact absurd ⟨rfl, hx⟩ hpair
          have hhead := headIs_slash_slcRun rest hdr
          simp [hasDSlash, htl, hhead]
        · simp [hasDSlash, htl, hc]

theorem cwsRun_false_cons (c : Char) (rest : List Char) :
    cwsRun false (c :: rest) =
      if isSpaceJS c then ' ' :: cwsRun true rest else c :: cwsRun false rest := rfl

theorem cwsRun_true_cons (c : Char) (rest : List Char) :
    cwsRun true (c :: rest) =
      if isSpaceJS c then cwsRun true rest else c :: cwsRun false rest := rfl

theorem headIs_slash_cwsRun (cs : List Char) (h : headIs '/' cs = false) :
    headIs '/' (cwsRun false cs) = false := by
  rcases cs with _ | ⟨d, r⟩
  · rfl
  · have hd : ¬ d = '/' := by simpa [headIs] using h
    rw [cwsRun_false_cons]
    by_cases hws : isSpaceJS d = true
    · rw [if_pos hws]
      rfl
    · rw [if_neg hws]
      simp [headIs, hd]

theorem hasDSlash_cwsRun : ∀ (cs : List Char) (b : Bool),
    hasDSlash cs = false → hasDSlash (cwsRun b cs) = false := by
  intro cs
  induction cs with
  | nil => intro b _; cases b <;> rfl
  | cons c rest ih =>
    intro b h
    have htl : hasDSlash rest = false := hasDSlash_tail h
    by_cases hws : isSpaceJS c = true
    · cases b with
      | true =>
        rw [cwsRun_true_cons, if_pos hws]
        exact ih true htl
      | false =>
        rw [cwsRun_false_cons, if_pos hws]
        simp [hasDSlash, ih true htl, headIs]
    · have hstep : ∀ b' : Bool, cwsRun b' (c :: rest) = c :: cwsRun false rest := by
        intro b'
        cases b' with
        | true => rw [cwsRun_true_cons, if_neg hws]
        | false => rw [cwsRun_false_cons, if_neg hws]
      rw [hstep b]
      have hY := ih false htl
      by_cases hc : c = '/'
      · subst hc
        have hdr : headIs '/' rest = false := by
          cases hx : headIs '/' rest
          · rfl
          · exact absurd h (by simp [hasDSlash, hx])
        have hhead := headIs_slash_cwsRun rest hdr
        simp [hasDSlash, hY, hhead]
      · simp [hasDSlash, hY, hc]

theorem hasDSlash_append_left (a b : List Char)
    (h : hasDSlash (a ++ b) = false) : hasDSlash a = false := by
  induction a with
  | nil => rfl
  | cons c a' ih =>
    rw [List.cons_append] at h
    have h2 := hasDSlash_tail h
    simp only [hasDSlash, Bool.or_eq_false_iff] at h ⊢
    refine ⟨?_, ih h2⟩
    rcases a' with _ | ⟨d, r⟩
    · simp [headIs]
    · simpa [headIs, List.cons_append] using h.1

theorem hasDSlash_suffix (a : List Char) :
    ∀ t : List Char, hasDSlash (t ++ a) = false → hasDSlash a = false := by
  intro t
  induction t with
  | nil => intro h; exact h
  | cons c t' ih =>
    intro h
    rw [List.cons_append] at h
    exact ih (hasDSlash_tail h)

theorem hasDSlash_trimJS (cs : List Char) (h : hasDSlash cs = false) :
    hasDSlash (trimJS cs) = false := by
  have h1 : hasDSlash (cs.dropWhile isSpaceJS) = false := by
    obtain ⟨t, ht⟩ := List.dropWhile_suffix (l := cs) isSpaceJS
    exact hasDSlash_suffix _ t (by rw [ht]; exact h)
  obtain ⟨t, ht⟩ :=
    List.rdropWhile_prefix (p := isSpaceJS) (l := cs.dropWhile isSpaceJS)
  show hasDSlash ((cs.dropWhile isSpaceJS).rdropWhile isSpaceJS) = false
  exact hasDSlash_append_left _ t (by rw [ht]; exact h1)

theorem hasDSlash_normalizeTf (cs : List Char) :
    hasDSlash (normalizeTf cs) = false := by
  have h1 : hasDSlash (stripLineComments (stripBlockComments cs)) = false :=
    hasDSlash_slcRun _ false
  have h2 : hasDSlash (collapseWs (stripLineComments (stripBlockComments cs))) = false :=
    hasDSlash_cwsRun _ false h1
  exact hasDSlash_trimJS _ h2

theorem headWs_cwsRun_true : ∀ (rest : List Char), headWs (cwsRun true rest) = false := by
  intro rest
  induction rest with
  | nil => rfl
  | cons d r ih =>
    by_cases hws : isSpaceJS d = true
    · rw [cwsRun_true_cons, if_pos hws]
      exact ih
    · rw [cwsRun_true_cons, if_neg hws]
      simpa [headWs] using hws

theorem wsCanon_cwsRun : ∀ (cs : List Char) (b : Bool), wsCanon (cwsRun b cs) = true := by
  intro cs
  induction cs with
  | nil => intro b; cases b <;> rfl
  | cons c rest ih =>
    intro b
    by_cases hws : isSpaceJS c = true
    · cases b with
      | true =>
        rw [cwsRun_true_cons, if_pos hws]
        exact ih true
      | false =>
        rw [cwsRun_false_cons, if_pos hws]
        simp [wsCanon, ih true, headWs_cwsRun_true rest, isSpaceJS]
    · have hws' : isSpaceJS c = false := by simpa using hws
      cases b with
      | true =>
        rw [cwsRun_true_cons, if_neg hws]
        simp [wsCanon, ih false, hws']
      | false =>
        rw [cwsRun_false_cons, if_neg hws]
        simp [wsCanon, ih false, hws']

theorem wsCanon_tail {c : Char} {rest : List Char}
    (h : wsCanon (c :: rest) = true) : wsCanon rest = true := by
  simp only [wsCanon, Bool.and_eq_true] at h
  exact h.2

theorem wsCanon_append_left : ∀ (a b : List Char),
    wsCanon (a ++ b) = true → wsCanon a = true := by
  intro a b
  induction a with
  | nil => intro _; rfl
  | cons c a' ih =>
    intro h
    rw [List.cons_append] at h
    simp only [wsCanon, Bool.and_eq_true] at h ⊢
    refine ⟨?_, ih h.2⟩
    rcases a' with _ | ⟨d, r⟩
    · have h1 := h.1
      simp only [headWs, Bool.not_false, Bool.and_true]
      rcases (Bool.or_eq_true _ _).mp h1 with hx | hx
      · simp [hx]
      · rw [Bool.and_eq_true] at hx
        simp [hx.1]
    · simpa [headWs, List.cons_append] using h.1

theorem wsCanon_suffix (a : List Char) :
    ∀ t : List Char, wsCanon (t ++ a) = true → wsCanon a = true := by
  intro t
  induction t with
  | nil => intro h; exact h
  | cons c t' ih =>
    intro h
    rw [List.cons_append] at h
    exact ih (wsCanon_tail h)

theorem wsCanon_trimJS (cs : List Char) (h : wsCanon cs = true) :
    wsCanon (trimJS cs) = true := by
  have h1 : wsCanon (cs.dropWhile isSpaceJS) = true := by
    obtain ⟨t, ht⟩ := List.dropWhile_suffix (l := cs) isSpaceJS
    exact wsCanon_suffix _ t (by rw [ht]; exact h)
  obtain ⟨t, ht⟩ :=
    List.rdropWhile_prefix (p := isSpaceJS) (l := cs.dropWhile isSpaceJS)
  show wsCanon ((cs.dropWhile isSpaceJS).rdropWhile isSpaceJS) = true
  exact wsCanon_append_left _ t (by rw [ht]; exact h1)

theorem wsCanon_normalizeTf (cs : List Char) : wsCanon (normalizeTf cs) = true :=
  wsCanon_trimJS _ (wsCanon_cwsRun _ false)

theorem cwsRun_id : ∀ (cs : List Char), wsCanon cs = true → cwsRun false cs = cs := by
  intro cs
  induction cs with
  | nil => intro _; rfl
  | cons c rest ih =>
    intro h
    simp only [wsCanon, Bool.and_eq_true] at h
    by_cases hws : isSpaceJS c = true
    · have h1 := h.1
      rw [hws] at h1
      simp only [Bool.not_true, Bool.false_or, Bool.and_eq_true, beq_iff_eq,
        Bool.not_eq_true'] at h1
      obtain ⟨hc, hhw⟩ := h1
      subst hc
      rw [cwsRun_false_cons, if_pos hws]
      congr 1
      rcases rest with _ | ⟨d, r⟩
      · rfl
      · have hd : isSpaceJS d = false := by simpa [headWs] using hhw
        rw [cwsRun_true_cons, if_neg (by simp [hd])]
        have hr := ih h.2
        rw [cwsRun_false_cons, if_neg (by simp [hd])] at hr
        exact hr
    · rw [cwsRun_false_cons, if_neg hws, ih h.2]

theorem trimJS_idem (cs : List Char) : trimJS (trimJS cs) = trimJS cs := by
  unfold trimJS
  have h1 : ((cs.dropWhile isSpaceJS).rdropWhile isSpaceJS).dropWhile isSpaceJS
      = (cs.dropWhile isSpaceJS).rdropWhile isSpaceJS := by
    rcases hz : (cs.dropWhile isSpaceJS).rdropWhile isSpaceJS with _ | ⟨a, z⟩
    · rfl
    · rw [List.dropWhile_cons]
      have hpre := List.rdropWhile_prefix (p := isSpaceJS) (l := cs.dropWhile isSpaceJS)
      rw [hz] at hpre
      obtain ⟨t, ht⟩ := hpre
      have hne : cs.dropWhile isSpaceJS ≠ [] := by
        rw [← ht]; simp
      have hv : (cs.dropWhile isSpaceJS).head hne = a := by
        rw [List.head_eq_iff_head?_eq_some hne, ← ht]
        rfl
      have hna := List.head_dropWhile_not isSpaceJS cs hne
      rw [hv] at hna
      rw [if_neg (by simp [hna])]
  rw [h1, List.rdropWhile_idempotent]

theorem stripBlockComments_id (u : List Char) (h : hasOC u = false) :
    stripBlockComments u = u := sbcRun_id u h

theorem stripLineComments_id (u : List Char) (h : hasDSlash u = false) :
    stripLineComments u = u := slcRun_id u h

theorem collapseWs_id (u : List Char) (h : wsCanon u = true) :
    collapseWs u = u := cwsRun_id u h

/-- C9 (counterexample): the normalization of `parseTerraformVariables` is
not idempotent.  On `t = "//**/*a*/"` the block-comment pass removes the
inner `/**/` in one sweep without rescanning the spliced text (as JS
`String.replace` does), leaving `N(t) = "/*a*/"`; a second application
removes that fresh block comment, so `N(N(t)) = "" ≠ N(t)`. -/
theorem C9_counterexample :
    normalizeTf (normalizeTf ("//**/*a*/".data)) ≠ normalizeTf ("//**/*a*/".data) := by
  decide

/-- C9 (amended): the normalization is idempotent on every input whose
normalized form contains no block-comment opener `/*` that is still
followed by a closer `*/`.  Concretely: normalized text never contains
`//` (every line-comment pass output is `//`-free and the later passes
preserve that), its whitespace is already canonical (single spaces, never
doubled), and it is trimmed; so when additionally no `/*...*/` pattern
survives in `N(t)`, all four passes leave `N(t)` unchanged and
`N(N(t)) = N(t)`. -/
theorem C9_amended_idempotent (t : List Char)
    (h : hasOC (normalizeTf t) = false) :
    normalizeTf (normalizeTf t) = normalizeTf t := by
  have hds : hasDSlash (normalizeTf t) = false := hasDSlash_normalizeTf t
  have hwc : wsCanon (normalizeTf t) = true := wsCanon_normalizeTf t
  show trimJS (collapseWs (stripLineComments (stripBlockComments (normalizeTf t))))
      = normalizeTf t
  rw [stripBlockComments_id _ h, stripLineComments_id _ hds, collapseWs_id _ hwc]
  exact trimJS_idem (collapseWs (stripLineComments (stripBlockComments t)))

/-- Witness for C9: on `t = " a  /* b */  c "` the normalized form is
`"a c"`, which has no surviving block comment, and renormalizing it is the
identity. -/
theorem C9_witness :
    hasOC (normalizeTf (" a  /* b */  c ".data)) = false ∧
    normalizeTf (normalizeTf (" a  /* b */  c ".data))
      = normalizeTf (" a  /* b */  c ".data) :=
  ⟨by decide, C9_amended_idempotent (" a  /* b */  c ".data) (by decide)⟩
